import Mathlib

set_option maxHeartbeats 1000000

/- Verification development for the blaslapack6432 generator.  The Python
   sources generate.py and generate_signatures.py are shallowly embedded
   below: Python dicts become insertion-ordered association lists, fallible
   code returns Except, and the jinja2 template of generate_code is embedded
   as a function producing the sequence of emitted statements. -/

/-- Association-list lookup, mirroring Python dict lookup `d.get(k)`
    (first binding wins; dict keys are unique in practice). -/
def alookup {α : Type} (k : String) : List (String × α) → Option α
  | [] => none
  | (n, v) :: rest => if n = k then some v else alookup k rest

/-- Association-list update, mirroring Python dict assignment `d[k] = v`:
    the first binding of `k` is replaced in place, a missing key is appended
    at the end (insertion order, as for Python dicts). -/
def setKey {α : Type} (k : String) (v : α) : List (String × α) → List (String × α)
  | [] => [(k, v)]
  | (n, w) :: rest => if n = k then (n, v) :: rest else (n, w) :: setKey k v rest

/-- JSON values as manipulated by generate.py's json_merge: mappings
    (Python dicts) and non-mapping leaves.  Leaf payloads are abstracted to
    a numeric tag because json_merge never inspects a non-dict value. -/
inductive JVal where
  | atom : Nat → JVal
  | obj : List (String × JVal) → JVal

/-- Embedding of the JsonMergeError payload of generate.py (lines 22-32):
    the main (base) value, the override value, and the key path. -/
structure MergeErr where
  main : JVal
  override : JVal
  keys : List String

/-- Wrap a merged field list back into a JSON object, propagating errors. -/
def mapObj : Except MergeErr (List (String × JVal)) → Except MergeErr JVal
  | .error e => .error e
  | .ok l => .ok (.obj l)

mutual
/-- Embedding of generate.py json_merge (lines 345-358).  A `none` main
    models Python's `main.get(name)` returning None for a missing key; any
    non-dict main is replaced by the override outright; a dict main with a
    non-dict override is a structured error; two dicts merge per key, the
    key being prepended to the error path on failure. -/
def json_merge : Option JVal → JVal → Except MergeErr JVal
  | none, ov => .ok ov
  | some (.atom _), ov => .ok ov
  | some (.obj m), .atom n => .error ⟨.obj m, .atom n, []⟩
  | some (.obj m), .obj o => mapObj (mergeFields m o)
termination_by _ ov => sizeOf ov

/-- The `for name, key in override.items()` loop of json_merge: each
    override field is merged into the main dict sequentially. -/
def mergeFields (m : List (String × JVal)) : List (String × JVal) → Except MergeErr (List (String × JVal))
  | [] => .ok m
  | (name, v) :: rest =>
    match json_merge (alookup name m) v with
    | .error e => .error ⟨e.main, e.override, name :: e.keys⟩
    | .ok nv => mergeFields (setKey name nv m) rest
termination_by o => sizeOf o
end

/-- Path lookup in a JSON value: follows a key path through nested objects. -/
def getPath : JVal → List String → Option JVal
  | v, [] => some v
  | .obj m, k :: p =>
    match alookup k m with
    | some v => getPath v p
    | none => none
  | .atom _, _ :: _ => none

/-- Boolean error test on Except results. -/
def isErr {ε α : Type} : Except ε α → Bool
  | .error _ => true
  | .ok _ => false

theorem isErr_mapObj (x : Except MergeErr (List (String × JVal))) : isErr (mapObj x) = isErr x := by
  cases x <;> simp [mapObj, isErr]

theorem alookup_setKey_ne {α : Type} (k nm : String) (v : α) (m : List (String × α)) (h : nm ≠ k) : alookup k (setKey nm v m) = alookup k m := by
  induction m with
  | nil => simp [setKey, alookup, h]
  | cons hd tl ih =>
    obtain ⟨n, w⟩ := hd
    by_cases hn : n = nm
    · subst hn
      simp [setKey, alookup, h]
    · simp [setKey, hn, alookup, ih]

theorem mergeFields_fail (k : String) (v : JVal) :
    ∀ (o m : List (String × JVal)), alookup k o = some v →
      isErr (json_merge (alookup k m) v) = true →
      isErr (mergeFields m o) = true := by
  intro o
  induction o with
  | nil => intro m h _; simp [alookup] at h
  | cons hd tl ih =>
    intro m hlook hfail
    obtain ⟨name, w⟩ := hd
    by_cases hnk : name = k
    · subst hnk
      have hw : w = v := by simpa [alookup] using hlook
      subst hw
      cases hjm : json_merge (alookup name m) w with
      | error e => rw [mergeFields.eq_def]; simp [hjm, isErr]
      | ok nv => rw [hjm] at hfail; simp [isErr] at hfail
    · have hlook' : alookup k tl = some v := by simpa [alookup, hnk] using hlook
      cases hjm : json_merge (alookup name m) w with
      | error e => rw [mergeFields.eq_def]; simp [hjm, isErr]
      | ok nv =>
        have hget : alookup k (setKey name nv m) = alookup k m := alookup_setKey_ne k name nv m hnk
        have hrec := ih (setKey name nv m) hlook' (by rw [hget]; exact hfail)
        rw [mergeFields.eq_def]
        simp [hjm]
        exact hrec

theorem json_merge_conflict_fails :
    ∀ (p : List String) (b ov : JVal) (B : List (String × JVal)) (n : Nat),
      getPath b p = some (JVal.obj B) → getPath ov p = some (JVal.atom n) →
      isErr (json_merge (some b) ov) = true := by
  intro p
  induction p with
  | nil =>
    intro b ov B n hb hov
    simp [getPath] at hb hov
    subst hb; subst hov
    rw [json_merge.eq_def]
    simp [isErr]
  | cons k p ih =>
    intro b ov B n hb hov
    cases b with
    | atom m => simp [getPath] at hb
    | obj mb =>
      cases ov with
      | atom x => simp [getPath] at hov
      | obj oo =>
        rw [getPath] at hb hov
        cases hlb : alookup k mb with
        | none => rw [hlb] at hb; simp at hb
        | some b' =>
          rw [hlb] at hb
          simp at hb
          cases hlo : alookup k oo with
          | none => rw [hlo] at hov; simp at hov
          | some v =>
            rw [hlo] at hov
            simp at hov
            have hfail : isErr (json_merge (alookup k mb) v) = true := by
              rw [hlb]; exact ih b' v B n hb hov
            have hmf := mergeFields_fail k v oo mb hlo hfail
            have hstep : json_merge (some (JVal.obj mb)) (JVal.obj oo) = mapObj (mergeFields mb oo) := by
              rw [json_merge.eq_def]
            rw [hstep, isErr_mapObj]
            exact hmf

/-- Claim C5: merging a base whose value at some key path is a mapping with
    an override whose value there is not a mapping fails with a structured
    error; in particular base `a -> (b -> 1)` with override `a -> 5` fails
    reporting path `a` and carrying both values; and a non-mapping base
    value is replaced outright by the override value. -/
theorem c5_merge_conflict :
    (∀ (b ov : JVal) (p : List String) (B : List (String × JVal)) (n : Nat),
        getPath b p = some (JVal.obj B) → getPath ov p = some (JVal.atom n) →
        isErr (json_merge (some b) ov) = true)
    ∧ json_merge (some (JVal.obj [("a", JVal.obj [("b", JVal.atom 1)])]))
        (JVal.obj [("a", JVal.atom 5)])
        = Except.error ⟨JVal.obj [("b", JVal.atom 1)], JVal.atom 5, ["a"]⟩
    ∧ (∀ (n : Nat) (ov : JVal), json_merge (some (JVal.atom n)) ov = Except.ok ov)
    ∧ (∀ (ov : JVal), json_merge none ov = Except.ok ov) := by
  refine ⟨fun b ov p B n hb hov => json_merge_conflict_fails p b ov B n hb hov, ?_, ?_, ?_⟩
  · simp [json_merge.eq_def, mergeFields.eq_def, alookup, mapObj]
  · intro n ov; rw [json_merge.eq_def]
  · intro ov; rw [json_merge.eq_def]

/-- Claim C5 witness: the conflict-failure part of c5_merge_conflict applied
    at the concrete base and override of the spec's example. -/
theorem c5_witness :
    isErr (json_merge (some (JVal.obj [("a", JVal.obj [("b", JVal.atom 1)])]))
      (JVal.obj [("a", JVal.atom 5)])) = true :=
  c5_merge_conflict.1 (JVal.obj [("a", JVal.obj [("b", JVal.atom 1)])])
    (JVal.obj [("a", JVal.atom 5)]) ["a"] [("b", JVal.atom 1)] 5 rfl rfl

/- Interface selection: embedding of generate.py load_include (lines
   310-327).  The inclusion document include.json holds three ordered name
   lists; entries starting with a comment marker are dropped in place. -/

/-- The inclusion document: literal names (`other`), precision stems (`sd`)
    and complex stems (`cz`). -/
structure IncludeDoc where
  other : List String
  sd : List String
  cz : List String

/-- Does a string start with the comment marker, as in Python
    `x.startswith("#")`. -/
def isComment (s : String) : Bool :=
  match s.data with
  | c :: _ => c = '#'
  | [] => false

/-- Embedding of the inner filter_comments of load_include. -/
def filter_comments (items : List String) : List String :=
  items.filter (fun x => !(isComment x))

/-- Expansion of one precision stem: `names.append("s"+part)` then
    `names.append("d"+part)`. -/
def sdExpand (p : String) : List String := ["s" ++ p, "d" ++ p]

/-- Expansion of one complex stem: `names.append("c"+part)` then
    `names.append("z"+part)`. -/
def czExpand (p : String) : List String := ["c" ++ p, "z" ++ p]

/-- Concatenated image of a list-valued function, modelling the sequential
    append loops of load_include. -/
def catMap {α β : Type} (f : α → List β) : List α → List β
  | [] => []
  | a :: l => f a ++ catMap f l

/-- Embedding of generate.py load_include: literal names first, then the
    s/d expansion of each precision stem in order, then the c/z expansion
    of each complex stem in order.  No deduplication is performed. -/
def load_include (inc : IncludeDoc) : List String :=
  filter_comments inc.other
    ++ catMap sdExpand (filter_comments inc.sd)
    ++ catMap czExpand (filter_comments inc.cz)

theorem getq_lt {α : Type} : ∀ (l : List α) (i : Nat) (a : α), l.get? i = some a → i < l.length := by
  intro l
  induction l with
  | nil => intro i a h; simp at h
  | cons hd tl ih =>
    intro i a h
    cases i with
    | zero => simp
    | succ j =>
      simp only [List.get?] at h
      have := ih j a h
      simpa using Nat.succ_lt_succ this

theorem getq_append_l {α : Type} : ∀ (l1 l2 : List α) (i : Nat) (a : α), l1.get? i = some a → (l1 ++ l2).get? i = some a := by
  intro l1
  induction l1 with
  | nil => intro l2 i a h; simp at h
  | cons hd tl ih =>
    intro l2 i a h
    cases i with
    | zero => simpa using h
    | succ j =>
      simp only [List.get?] at h ⊢
      exact ih l2 j a h

theorem getq_append_r {α : Type} : ∀ (l1 l2 : List α) (i : Nat) (a : α), l2.get? i = some a → (l1 ++ l2).get? (l1.length + i) = some a := by
  intro l1
  induction l1 with
  | nil => intro l2 i a h; simpa using h
  | cons hd tl ih =>
    intro l2 i a h
    have : (hd :: tl).length + i = (tl.length + i) + 1 := by simp [List.length]; omega
    rw [this]
    simp only [List.cons_append, List.get?]
    exact ih l2 i a h

theorem mem_getq {α : Type} : ∀ (l : List α) (a : α), a ∈ l → ∃ i, l.get? i = some a := by
  intro l
  induction l with
  | nil => intro a h; simp at h
  | cons hd tl ih =>
    intro a h
    rcases List.mem_cons.mp h with h | h
    · exact ⟨0, by simp [h]⟩
    · obtain ⟨i, hi⟩ := ih a h
      exact ⟨i + 1, by simpa using hi⟩

theorem catMap_pair_length {f : String → List String} {f1 f2 : String → String}
    (hf : ∀ q, f q = [f1 q, f2 q]) :
    ∀ (l : List String), (catMap f l).length = 2 * l.length := by
  intro l
  induction l with
  | nil => simp [catMap]
  | cons hd tl ih =>
    simp [catMap, hf, ih]
    omega

theorem catMap_pair_getq {f : String → List String} {f1 f2 : String → String}
    (hf : ∀ q, f q = [f1 q, f2 q]) :
    ∀ (l : List String) (i : Nat) (p : String), l.get? i = some p →
      (catMap f l).get? (2 * i) = some (f1 p) ∧ (catMap f l).get? (2 * i + 1) = some (f2 p) := by
  intro l
  induction l with
  | nil => intro i p h; simp at h
  | cons hd tl ih =>
    intro i p h
    cases i with
    | zero =>
      have hp : hd = p := by simpa using h
      subst hp
      simp [catMap, hf]
    | succ j =>
      have hj : tl.get? j = some p := by simpa using h
      have hrec := ih j p hj
      have h2 : 2 * (j + 1) = 2 * j + 1 + 1 := by omega
      have h3 : 2 * (j + 1) + 1 = (2 * j + 1 + 1) + 1 := by omega
      constructor
      · rw [h2]
        simp only [catMap, hf, List.cons_append, List.nil_append, List.get?]
        exact hrec.1
      · rw [h3]
        simp only [catMap, hf, List.cons_append, List.nil_append, List.get?]
        exact hrec.2

/-- Claim C9: stem expansion returns exactly
    foo, saxpy, daxpy, cdotc, zdotc for the spec's example input, and in
    general the literal names come first in input order, each precision
    stem p contributes the adjacent pair (s+p, d+p) at offset
    `|others| + 2 i`, and each complex stem the pair (c+p, z+p) after all
    precision expansions, preserving input order. -/
theorem c9_stem_expansion :
    load_include ⟨["foo"], ["axpy"], ["dotc"]⟩ = ["foo", "saxpy", "daxpy", "cdotc", "zdotc"]
    ∧ (∀ (inc : IncludeDoc) (i : Nat) (x : String),
        (filter_comments inc.other).get? i = some x → (load_include inc).get? i = some x)
    ∧ (∀ (inc : IncludeDoc) (i : Nat) (p : String),
        (filter_comments inc.sd).get? i = some p →
          (load_include inc).get? ((filter_comments inc.other).length + 2 * i) = some ("s" ++ p)
          ∧ (load_include inc).get? ((filter_comments inc.other).length + (2 * i + 1)) = some ("d" ++ p))
    ∧ (∀ (inc : IncludeDoc) (i : Nat) (p : String),
        (filter_comments inc.cz).get? i = some p →
          (load_include inc).get? ((filter_comments inc.other).length + 2 * (filter_comments inc.sd).length + 2 * i) = some ("c" ++ p)
          ∧ (load_include inc).get? ((filter_comments inc.other).length + 2 * (filter_comments inc.sd).length + (2 * i + 1)) = some ("z" ++ p)) := by
  have hsd : ∀ q, sdExpand q = ["s" ++ q, "d" ++ q] := fun q => rfl
  have hcz : ∀ q, czExpand q = ["c" ++ q, "z" ++ q] := fun q => rfl
  refine ⟨rfl, ?_, ?_, ?_⟩
  · intro inc i x h
    exact getq_append_l _ _ _ _ (getq_append_l _ _ _ _ h)
  · intro inc i p h
    have hpair := catMap_pair_getq hsd (filter_comments inc.sd) i p h
    constructor
    · exact getq_append_l _ _ _ _ (getq_append_r _ _ _ _ hpair.1)
    · exact getq_append_l _ _ _ _ (getq_append_r _ _ _ _ hpair.2)
  · intro inc i p h
    have hpair := catMap_pair_getq hcz (filter_comments inc.cz) i p h
    have hlen : ((filter_comments inc.other) ++ catMap sdExpand (filter_comments inc.sd)).length
        = (filter_comments inc.other).length + 2 * (filter_comments inc.sd).length := by
      simp [List.length_append, catMap_pair_length hsd]
    constructor
    · have := getq_append_r ((filter_comments inc.other) ++ catMap sdExpand (filter_comments inc.sd))
        (catMap czExpand (filter_comments inc.cz)) (2 * i) _ hpair.1
      rw [hlen] at this
      simpa [load_include, List.append_assoc, Nat.add_assoc] using this
    · have := getq_append_r ((filter_comments inc.other) ++ catMap sdExpand (filter_comments inc.sd))
        (catMap czExpand (filter_comments inc.cz)) (2 * i + 1) _ hpair.2
      rw [hlen] at this
      simpa [load_include, List.append_assoc, Nat.add_assoc] using this

/-- Claim C9 witness: the general expansion facts applied to the concrete
    example document at index 0. -/
theorem c9_witness :
    (load_include ⟨["foo"], ["axpy"], ["dotc"]⟩).get? 1 = some ("s" ++ "axpy") :=
  (c9_stem_expansion.2.2.1 ⟨["foo"], ["axpy"], ["dotc"]⟩ 0 "axpy" rfl).1

/-- Claim C4 counterexample: the selection output for an inclusion document
    that lists the same literal name twice contains a duplicate, so the
    output is not deduplicated. -/
theorem c4_counterexample : ¬ (load_include ⟨["foo", "foo"], [], []⟩).Nodup := by
  decide

/-- Claim C4 (amended): interface selection returns the concrete names in
    input order, but performs no deduplication: occurrence counts are
    additive across the three sections, literal names keep their input
    positions, and a document listing a name twice yields it twice. -/
theorem c4_no_dedup :
    (∀ (inc : IncludeDoc) (x : String),
        (load_include inc).count x
          = (filter_comments inc.other).count x
            + ((catMap sdExpand (filter_comments inc.sd)).count x
               + (catMap czExpand (filter_comments inc.cz)).count x))
    ∧ (∀ (inc : IncludeDoc) (i : Nat) (x : String),
        (filter_comments inc.other).get? i = some x → (load_include inc).get? i = some x)
    ∧ load_include ⟨["foo", "foo"], [], []⟩ = ["foo", "foo"] := by
  refine ⟨?_, ?_, rfl⟩
  · intro inc x
    simp [load_include, List.count_append, Nat.add_assoc]
  · intro inc i x h
    exact getq_append_l _ _ _ _ (getq_append_l _ _ _ _ h)

/-- Claim C4 witness: the order-preservation part of c4_no_dedup applied to
    the duplicate-name document at index 1. -/
theorem c4_witness : (load_include ⟨["foo", "foo"], [], []⟩).get? 1 = some "foo" :=
  c4_no_dedup.2.1 ⟨["foo", "foo"], [], []⟩ 1 "foo" rfl

/- Signature extraction: embedding of generate_signatures.py.  The
   free-text documentation scan (regexes, lines 89-135) is an upstream
   producer; its output is the dimension_info / intent_info maps consumed
   by the resolution loop (lines 146-166), which is embedded below. -/

/-- Dimension entries as stored in a signature's "dimension" list: a plain
    token (literal constant, argument name, or "*"), a min(a,b) record, or
    an n*min(a,b) record. -/
inductive Dim where
  | str : String → Dim
  | dmin : String → String → Dim
  | dmulmin : Nat → String → String → Dim
deriving DecidableEq

/-- Per-argument signature record (an entry of info["vars"]): the fields
    generate.py and generate_signatures.py read.  A missing dict key is a
    `none` field. -/
structure VarInfo where
  typespec : String
  intent : Option (List String) := none
  dimension : Option (List Dim) := none
deriving DecidableEq

/-- An entry of the dimension_info map produced by the documentation scan
    of process_fortran: ("var", y) for a plain reference -- also used for
    the max(1,Y) pattern -- ("min", a, b), and ("mulmin", n, a, b). -/
inductive DocDim where
  | dvar : String → DocDim
  | dmin : String → String → DocDim
  | dmulmin : Nat → String → String → DocDim
deriving DecidableEq

/-- A routine signature record as produced by process_fortran and consumed
    by generate_code: name, block kind, return typespec (the "prefix" field
    of the Python record, present for functions), the ordered argument name
    list, and the per-argument records. -/
structure Item where
  name : String
  block : String
  retType : Option String := none
  args : List String
  vars : List (String × VarInfo)
deriving DecidableEq

/-- Key-membership test `y in info["vars"]`. -/
def hasVar (vars : List (String × VarInfo)) (y : String) : Bool :=
  (alookup y vars).isSome

/-- Embedding of the per-variable body of the resolution loop of
    process_fortran (generate_signatures.py lines 146-166): only integer
    variables are touched; a raw dimension ["*"] is resolved through the
    dimension_info documentation map when the referenced argument names
    exist among the routine's variables; the intent_info entry, when
    present, is recorded.  There is no name-convention rule: resolution
    uses the documentation map only. -/
def resolveVar (dinfo : List (String × DocDim)) (iinfo : List (String × List String))
    (vars : List (String × VarInfo)) (varname : String) (vi : VarInfo) : VarInfo :=
  if vi.typespec ≠ "integer" then vi
  else
    let vi1 :=
      if vi.dimension.getD [] = [Dim.str "*"] then
        match alookup varname dinfo with
        | some (.dvar y) => if hasVar vars y then { vi with dimension := some [Dim.str y] } else vi
        | some (.dmin a b) => if hasVar vars a && hasVar vars b then { vi with dimension := some [Dim.dmin a b] } else vi
        | some (.dmulmin n a b) => if hasVar vars a && hasVar vars b then { vi with dimension := some [Dim.dmulmin n a b] } else vi
        | none => vi
      else vi
    match alookup varname iinfo with
    | some il => { vi1 with intent := some il }
    | none => vi1

/-- The whole resolution loop: every variable of a routine is passed
    through resolveVar (the name-existence checks consult the routine's own
    variable keys, which the loop never changes). -/
def resolveVarsAll (dinfo : List (String × DocDim)) (iinfo : List (String × List String))
    (vars : List (String × VarInfo)) : List (String × VarInfo) :=
  vars.map (fun p => (p.1, resolveVar dinfo iinfo vars p.1 p.2))

/-- Claim C3 counterexample: an integer array argument "iwork" with raw
    dimension "*" and a sibling argument "liwork", but no documentation
    match, is left unresolved by signature extraction: its dimension stays
    "*" and is not resolved to liwork, so no name-convention rule exists. -/
theorem c3_counterexample :
    (resolveVar [] []
        [("iwork", { typespec := "integer", dimension := some [Dim.str "*"] }),
         ("liwork", { typespec := "integer" })]
        "iwork" { typespec := "integer", dimension := some [Dim.str "*"] }).dimension
      = some [Dim.str "*"]
    ∧ (resolveVar [] []
        [("iwork", { typespec := "integer", dimension := some [Dim.str "*"] }),
         ("liwork", { typespec := "integer" })]
        "iwork" { typespec := "integer", dimension := some [Dim.str "*"] }).dimension
      ≠ some [Dim.str "liwork"] := by
  exact ⟨rfl, by decide⟩

/-- Claim C3 (amended): signature extraction has no iwork/liwork
    name-convention rule.  An integer array dimension "*" is resolved only
    through the documentation map: with no documentation entry the
    dimension is left unchanged (hence unresolved) even when a sibling
    liwork exists; a plain documentation reference resolves to the named
    sibling when that name exists among the routine's variables, and is
    discarded when it does not. -/
theorem c3_no_name_convention :
    (∀ (dinfo : List (String × DocDim)) (iinfo : List (String × List String))
        (vars : List (String × VarInfo)) (vn : String) (vi : VarInfo),
        alookup vn dinfo = none →
        (resolveVar dinfo iinfo vars vn vi).dimension = vi.dimension)
    ∧ (∀ (dinfo : List (String × DocDim)) (iinfo : List (String × List String))
        (vars : List (String × VarInfo)) (vn y : String) (vi : VarInfo),
        vi.typespec = "integer" → vi.dimension = some [Dim.str "*"] →
        alookup vn dinfo = some (DocDim.dvar y) → hasVar vars y = true →
        (resolveVar dinfo iinfo vars vn vi).dimension = some [Dim.str y])
    ∧ (∀ (dinfo : List (String × DocDim)) (iinfo : List (String × List String))
        (vars : List (String × VarInfo)) (vn y : String) (vi : VarInfo),
        alookup vn dinfo = some (DocDim.dvar y) → hasVar vars y = false →
        (resolveVar dinfo iinfo vars vn vi).dimension = vi.dimension) := by
  refine ⟨?_, ?_, ?_⟩
  · intro dinfo iinfo vars vn vi hnone
    by_cases ht : vi.typespec ≠ "integer"
    · simp [resolveVar, ht]
    · simp only [resolveVar, if_neg ht, hnone]
      by_cases hd : vi.dimension.getD [] = [Dim.str "*"] <;>
        cases hi : alookup vn iinfo <;> simp [hd, hi] <;> split <;> rfl
  · intro dinfo iinfo vars vn y vi ht hd hdoc hy
    simp only [resolveVar, ht, hd, hdoc, hy]
    cases hi : alookup vn iinfo <;> simp [hi]
  · intro dinfo iinfo vars vn y vi hdoc hy
    by_cases ht : vi.typespec ≠ "integer"
    · simp [resolveVar, ht]
    · simp only [resolveVar, if_neg ht, hdoc, hy]
      by_cases hd : vi.dimension.getD [] = [Dim.str "*"] <;>
        cases hi : alookup vn iinfo <;> simp [hd, hy, hi] <;> split <;> rfl

/- Dependency listing: generate_signatures.py initializes skipped_files to
   all scanned source files and removes a file when one of its routines is
   named by the inclusion list (lines 62-70); the sorted remainder is
   stored under "skipped_files" (line 75).  generate.py then writes the
   SOURCES listing of blaslapack6432.d from exactly that set, skipping any
   file whose base name was already written (lines 124-133). -/

/-- Does a scanned file contribute a routine retained by the inclusion
    list, i.e. does `info["name"] in names` hold for one of its infos. -/
def contributes (names : List String) (infos : List Item) : Bool :=
  infos.any (fun info => names.contains info.name)

/-- The skipped_files set of generate_signatures.py main: the scanned files
    none of whose routines is named by the inclusion list.  (The Python
    code keeps a set and removes retained files; membership is the same.) -/
def skippedFilesOf (fileInfos : List (String × List Item)) (names : List String) : List String :=
  (fileInfos.filter (fun p => !(contributes names p.2))).map Prod.fst

/-- The characters of the last path component: os.path.basename for the
    POSIX paths handled here. -/
def lastCompAux (cur : List Char) : List Char → List Char
  | [] => cur.reverse
  | c :: rest => if c = '/' then lastCompAux [] rest else lastCompAux (c :: cur) rest

/-- Embedding of os.path.basename as used on the scanned filenames. -/
def basename (s : String) : String := ⟨lastCompAux [] s.data⟩

/-- The `seen` loop of the blaslapack6432.d writer: keep a file only if no
    earlier kept file had the same base name. -/
def dedupBaseGo (seen : List String) : List String → List String
  | [] => []
  | f :: rest =>
    if seen.contains (basename f) then dedupBaseGo seen rest
    else f :: dedupBaseGo (basename f :: seen) rest

/-- The dependency listing written to blaslapack6432.d: the input files
    deduplicated by base name, first occurrence kept. -/
def dedupBasename (l : List String) : List String := dedupBaseGo [] l

theorem mem_skippedFilesOf (fileInfos : List (String × List Item)) (names : List String) (f : String) :
    f ∈ skippedFilesOf fileInfos names
      ↔ ∃ infos, (f, infos) ∈ fileInfos ∧ contributes names infos = false := by
  constructor
  · intro h
    obtain ⟨p, hp, hpf⟩ := List.mem_map.mp h
    have hmem := List.mem_filter.mp hp
    refine ⟨p.2, ?_, by simpa using hmem.2⟩
    have : p = (f, p.2) := by
      cases p; simp at hpf; simp [hpf]
    rw [← this]; exact hmem.1
  · rintro ⟨infos, hmem, hc⟩
    exact List.mem_map.mpr ⟨(f, infos), List.mem_filter.mpr ⟨hmem, by simp [hc]⟩, rfl⟩

theorem dedupBaseGo_mem_sub : ∀ (l seen : List String) (f : String), f ∈ dedupBaseGo seen l → f ∈ l := by
  intro l
  induction l with
  | nil => intro seen f h; simpa [dedupBaseGo] using h
  | cons hd tl ih =>
    intro seen f h
    rw [dedupBaseGo] at h
    by_cases hc : seen.contains (basename hd)
    · rw [if_pos hc] at h
      exact List.mem_cons_of_mem hd (ih seen f h)
    · rw [if_neg hc] at h
      rcases List.mem_cons.mp h with h | h
      · exact h ▸ List.mem_cons_self hd tl
      · exact List.mem_cons_of_mem hd (ih _ f h)

theorem dedupBaseGo_basenames : ∀ (l seen : List String) (b : String),
    (∃ f, f ∈ dedupBaseGo seen l ∧ basename f = b)
      ↔ ((∃ f, f ∈ l ∧ basename f = b) ∧ seen.contains b = false) := by
  intro l
  induction l with
  | nil =>
    intro seen b
    simp [dedupBaseGo]
  | cons hd tl ih =>
    intro seen b
    rw [dedupBaseGo]
    by_cases hc : seen.contains (basename hd)
    · rw [if_pos hc]
      rw [ih seen b]
      constructor
      · rintro ⟨hex, hnb⟩
        exact ⟨hex.imp (fun f hf => ⟨List.mem_cons_of_mem hd hf.1, hf.2⟩), hnb⟩
      · rintro ⟨⟨f, hf, hfb⟩, hnb⟩
        rcases List.mem_cons.mp hf with h | h
        · subst h
          rw [hfb] at hc
          rw [hc] at hnb
          exact absurd hnb (by simp)
        · exact ⟨⟨f, h, hfb⟩, hnb⟩
    · rw [if_neg hc]
      by_cases hb : basename hd = b
      · subst hb
        constructor
        · intro _
          refine ⟨⟨hd, List.mem_cons_self hd tl, rfl⟩, ?_⟩
          simpa using hc
        · intro _
          exact ⟨hd, List.mem_cons_self _ _, rfl⟩
      · constructor
        · rintro ⟨f, hf, hfb⟩
          rcases List.mem_cons.mp hf with h | h
          · exact absurd (h ▸ hfb) hb
          · have := (ih (basename hd :: seen) b).mp ⟨f, h, hfb⟩
            refine ⟨this.1.imp (fun g hg => ⟨List.mem_cons_of_mem hd hg.1, hg.2⟩), ?_⟩
            have hcontains := this.2
            simp only [List.contains_cons] at hcontains
            exact (Bool.or_eq_false_iff.mp hcontains).2
        · rintro ⟨⟨f, hf, hfb⟩, hnb⟩
          rcases List.mem_cons.mp hf with h | h
          · exact absurd (h ▸ hfb) hb
          · have hseen' : (basename hd :: seen).contains b = false := by
              simp only [List.contains_cons]
              refine Bool.or_eq_false_iff.mpr ⟨?_, hnb⟩
              simpa using fun hEq => hb hEq.symm
            obtain ⟨g, hg, hgb⟩ := (ih (basename hd :: seen) b).mpr ⟨⟨f, h, hfb⟩, hseen'⟩
            exact ⟨g, List.mem_cons_of_mem hd hg, hgb⟩

theorem dedupBaseGo_not_seen : ∀ (l seen : List String) (f : String),
    f ∈ dedupBaseGo seen l → seen.contains (basename f) = false := by
  intro l
  induction l with
  | nil => intro seen f h; simp [dedupBaseGo] at h
  | cons hd tl ih =>
    intro seen f h
    rw [dedupBaseGo] at h
    by_cases hc : seen.contains (basename hd)
    · rw [if_pos hc] at h
      exact ih seen f h
    · rw [if_neg hc] at h
      rcases List.mem_cons.mp h with h | h
      · subst h; simpa using hc
      · have := ih (basename hd :: seen) f h
        simp only [List.contains_cons] at this
        exact (Bool.or_eq_false_iff.mp this).2

theorem dedupBaseGo_nodup : ∀ (l seen : List String), ((dedupBaseGo seen l).map basename).Nodup := by
  intro l
  induction l with
  | nil => intro seen; simp [dedupBaseGo]
  | cons hd tl ih =>
    intro seen
    rw [dedupBaseGo]
    by_cases hc : seen.contains (basename hd)
    · rw [if_pos hc]; exact ih seen
    · rw [if_neg hc]
      simp only [List.map_cons, List.nodup_cons]
      refine ⟨?_, ih (basename hd :: seen)⟩
      intro hmem
      obtain ⟨g, hg, hgb⟩ := List.mem_map.mp hmem
      have := dedupBaseGo_not_seen tl (basename hd :: seen) g hg
      rw [hgb] at this
      simp at this

theorem assoc_unique {α : Type} : ∀ (l : List (String × α)) (f : String) (a b : α),
    (l.map Prod.fst).Nodup → (f, a) ∈ l → (f, b) ∈ l → a = b := by
  intro l
  induction l with
  | nil => intro f a b _ ha _; simp at ha
  | cons hd tl ih =>
    intro f a b hnd ha hb
    simp only [List.map_cons, List.nodup_cons] at hnd
    rcases List.mem_cons.mp ha with ha | ha <;> rcases List.mem_cons.mp hb with hb | hb
    · have hab : (f, a) = (f, b) := ha.trans hb.symm
      injection hab with _ h
    · exfalso
      apply hnd.1
      exact List.mem_map.mpr ⟨(f, b), hb, by rw [← ha]⟩
    · exfalso
      apply hnd.1
      exact List.mem_map.mpr ⟨(f, a), ha, by rw [← hb]⟩
    · exact ih f a b hnd.2 ha hb

/-- Claim C2 counterexample: with file src/a.f defining routine foo, file
    src/b.f defining routine bar, and inclusion list [foo], the emitted
    dependency listing is exactly [src/b.f]: the file contributing the
    retained routine is excluded and the file contributing none is listed,
    the opposite of the claimed round trip. -/
theorem c2_counterexample :
    dedupBasename (skippedFilesOf
      [("src/a.f", [{ name := "foo", block := "subroutine", args := [], vars := [] }]),
       ("src/b.f", [{ name := "bar", block := "subroutine", args := [], vars := [] }])]
      ["foo"]) = ["src/b.f"] := by
  rfl

/-- Claim C2 (amended): the dependency listing enumerates, deduplicated by
    base name (first occurrence kept), exactly the scanned source files
    that contributed NO retained routine; a file at least one of whose
    routines is retained is excluded from the listing. -/
theorem c2_dep_listing :
    (∀ (fileInfos : List (String × List Item)) (names : List String) (b : String),
        (∃ f, f ∈ dedupBasename (skippedFilesOf fileInfos names) ∧ basename f = b)
          ↔ (∃ f infos, (f, infos) ∈ fileInfos ∧ contributes names infos = false ∧ basename f = b))
    ∧ (∀ (fileInfos : List (String × List Item)) (names : List String),
        ((dedupBasename (skippedFilesOf fileInfos names)).map basename).Nodup)
    ∧ (∀ (fileInfos : List (String × List Item)) (names : List String) (f : String),
        f ∈ dedupBasename (skippedFilesOf fileInfos names) →
          ∃ infos, (f, infos) ∈ fileInfos ∧ contributes names infos = false)
    ∧ (∀ (fileInfos : List (String × List Item)) (names : List String) (f : String) (infos : List Item),
        (fileInfos.map Prod.fst).Nodup → (f, infos) ∈ fileInfos → contributes names infos = true →
          f ∉ dedupBasename (skippedFilesOf fileInfos names)) := by
  refine ⟨?_, ?_, ?_, ?_⟩
  · intro fileInfos names b
    rw [dedupBasename]
    rw [dedupBaseGo_basenames (skippedFilesOf fileInfos names) [] b]
    simp only [List.contains_nil, and_true]
    constructor
    · rintro ⟨f, hf, hfb⟩
      obtain ⟨infos, hmem, hc⟩ := (mem_skippedFilesOf fileInfos names f).mp hf
      exact ⟨f, infos, hmem, hc, hfb⟩
    · rintro ⟨f, infos, hmem, hc, hfb⟩
      exact ⟨f, (mem_skippedFilesOf fileInfos names f).mpr ⟨infos, hmem, hc⟩, hfb⟩
  · intro fileInfos names
    exact dedupBaseGo_nodup _ []
  · intro fileInfos names f hf
    exact (mem_skippedFilesOf fileInfos names f).mp
      (dedupBaseGo_mem_sub (skippedFilesOf fileInfos names) [] f hf)
  · intro fileInfos names f infos hnd hmem hcontrib hin
    obtain ⟨infos', hmem', hc'⟩ := (mem_skippedFilesOf fileInfos names f).mp
      (dedupBaseGo_mem_sub (skippedFilesOf fileInfos names) [] f hin)
    have : infos = infos' := assoc_unique fileInfos f infos infos' hnd hmem hmem'
    rw [← this] at hc'
    rw [hcontrib] at hc'
    exact absurd hc' (by simp)

/-- Claim C2 witness: the exclusion part of c2_dep_listing applied to the
    concrete two-file setup shows the retained-routine file src/a.f is not
    listed. -/
theorem c2_witness :
    "src/a.f" ∉ dedupBasename (skippedFilesOf
      [("src/a.f", [{ name := "foo", block := "subroutine", args := [], vars := [] }]),
       ("src/b.f", [{ name := "bar", block := "subroutine", args := [], vars := [] }])]
      ["foo"]) :=
  c2_dep_listing.2.2.2
    [("src/a.f", [{ name := "foo", block := "subroutine", args := [], vars := [] }]),
     ("src/b.f", [{ name := "bar", block := "subroutine", args := [], vars := [] }])]
    ["foo"] "src/a.f" [{ name := "foo", block := "subroutine", args := [], vars := [] }]
    (by decide) (by decide) rfl

/- Code synthesis: embedding of generate.py generate_code (lines 150-307)
   and the surrounding generate_signatures loop (lines 44-147).  The jinja2
   template emits, per routine, a parameter list and (for the definition) a
   linear statement sequence with no branches; the embedding produces that
   sequence as structured statements, keeping every interpolated name,
   C-type string and size-expression string. -/

/-- Error channel of the generator: `fatal` models Python exceptions that
    no caller catches (ValueError and KeyError abort the whole run), `user`
    models UserError (caught per routine and accumulated). -/
inductive GErr where
  | fatal : String → GErr
  | user : String → GErr
deriving DecidableEq

/-- Decimal digit value of a character. -/
def digitVal? (c : Char) : Option Nat :=
  if '0' ≤ c ∧ c ≤ '9' then some (c.toNat - '0'.toNat) else none

/-- Accumulating decimal parse. -/
def digitsToNat? : List Char → Option Nat → Option Nat
  | [], acc => acc
  | c :: rest, acc =>
    match digitVal? c, acc with
    | some d, some n => digitsToNat? rest (some (n * 10 + d))
    | some d, none => digitsToNat? rest (some d)
    | none, _ => none

/-- Python int(s) on the canonical non-negative decimal dimension literals
    occurring in signatures; none models the ValueError branch. -/
def parseNat? (s : String) : Option Nat := digitsToNat? s.data none

/-- The fmt dict of generate_code (floating and complex base types). -/
def fmtBase (t : String) : Option String :=
  if t = "double precision" then some "double"
  else if t = "real" then some "float"
  else if t = "complex" then some "c_t"
  else if t = "complex*16" then some "z_t"
  else none

/-- format_src_type: fmt extended with integer and logical mapped to
    SRC_INT, defaulting to void. -/
def format_src_type (t : String) : String :=
  if t = "integer" ∨ t = "logical" then "SRC_INT" else (fmtBase t).getD "void"

/-- format_dst_type: fmt extended with integer and logical mapped to INT,
    defaulting to void. -/
def format_dst_type (t : String) : String :=
  if t = "integer" ∨ t = "logical" then "INT" else (fmtBase t).getD "void"

/-- Embedding of format_array_size (lines 176-193): unpack the
    single-element dimension list (any other length fails the unpacking
    assignment, an uncaught ValueError); format a numeric literal through
    int(); prefix a dereference star to an argument name; format the min
    and mulmin records.  The unknown-dict-key ValueError branch is
    unrepresentable because Dim is closed over the three produced forms. -/
def format_array_size : List Dim → Except GErr String
  | [d] =>
    match d with
    | .str s =>
      match parseNat? s with
      | some n => .ok (toString n)
      | none => .ok ("*" ++ s)
    | .dmin a b => .ok ("MIN(*" ++ a ++ ", *" ++ b ++ ")")
    | .dmulmin n a b => .ok (toString n ++ " * (int64_t)MIN(*" ++ a ++ ", *" ++ b ++ ")")
  | _ => .error (.fatal "dimension list does not unpack to one value")

/-- The `"*" not in arg["array_size"]` test of line 202, negated. -/
def strHasStar (s : String) : Bool := s.data.contains '*'

/-- An argument record after generate_code's annotation loop (lines
    195-204): the varinfo fields plus the computed C types and, for integer
    arguments with a dimension key, the formatted array size and the
    constant_dimension flag. -/
structure AArg where
  name : String
  typespec : String
  intent : Option (List String) := none
  dimension : Option (List Dim) := none
  dst_ctype : String
  src_ctype : String
  array_size : Option String := none
  constant_dimension : Bool := false
deriving DecidableEq

/-- mapM over Except with explicit equations: a loop that stops at the
    first exception. -/
def mapME {α β : Type} (f : α → Except GErr β) : List α → Except GErr (List β)
  | [] => .ok []
  | a :: rest =>
    match f a with
    | .error e => .error e
    | .ok b =>
      match mapME f rest with
      | .error e => .error e
      | .ok bs => .ok (b :: bs)

/-- The argument list construction of generate_code (line 151): look up
    each name of item["args"] in item["vars"]; a missing entry is a
    KeyError, which nothing catches. -/
def resolveArgs (item : Item) : Except GErr (List (String × VarInfo)) :=
  mapME (fun a =>
    match alookup a item.vars with
    | some vi => .ok (a, vi)
    | none => .error (.fatal ("KeyError: " ++ a))) item.args

/-- The annotation loop of generate_code (lines 195-204): compute the dst
    and src C types (in prototype mode format_dst_type is rebound to
    format_src_type); for an integer argument with a dimension key, format
    the array size and set constant_dimension; every other argument keeps
    the defaults. -/
def annotateArg (proto : Bool) (p : String × VarInfo) : Except GErr AArg :=
  if p.2.typespec = "integer" then
    match p.2.dimension with
    | some dl =>
      match format_array_size dl with
      | .error e => .error e
      | .ok sz =>
        .ok { name := p.1, typespec := p.2.typespec, intent := p.2.intent,
              dimension := p.2.dimension,
              dst_ctype := if proto then format_src_type p.2.typespec else format_dst_type p.2.typespec,
              src_ctype := format_src_type p.2.typespec,
              array_size := some sz, constant_dimension := !(strHasStar sz) }
    | none =>
      .ok { name := p.1, typespec := p.2.typespec, intent := p.2.intent,
            dimension := p.2.dimension,
            dst_ctype := if proto then format_src_type p.2.typespec else format_dst_type p.2.typespec,
            src_ctype := format_src_type p.2.typespec }
  else
    .ok { name := p.1, typespec := p.2.typespec, intent := p.2.intent,
          dimension := p.2.dimension,
          dst_ctype := if proto then format_src_type p.2.typespec else format_dst_type p.2.typespec,
          src_ctype := format_src_type p.2.typespec }

/-- Python truthiness of arg.get("dimension") and of arg.dimension in the
    template: key present and list non-empty. -/
def dimTruthy (a : AArg) : Bool :=
  match a.dimension with
  | some l => !l.isEmpty
  | none => false

/-- `"in" in arg.intent` of the template. -/
def hasIn (a : AArg) : Bool := (a.intent.getD []).contains "in"

/-- `"out" in arg.intent` of the template. -/
def hasOut (a : AArg) : Bool := (a.intent.getD []).contains "out"

/-- The character_size pseudo-argument appended for a character scalar at
    original position j (the Python dict literal populates only typespec
    and name). -/
def charSizeArg (j : Nat) : AArg :=
  { name := "size" ++ toString j, typespec := "character_size",
    dst_ctype := "", src_ctype := "" }

/-- The check-and-extend loop of generate_code (lines 206-213), iterating
    with indices over a copy of the argument list: an integer argument
    without recorded intent raises ValueError (fatal, uncaught); a
    character argument with a truthy dimension raises UserError; a
    character scalar appends a character_size argument named after its
    position.  Returns the appended extras in order. -/
def scanArgs : List AArg → Nat → Except GErr (List AArg)
  | [], _ => .ok []
  | a :: rest, j =>
    if a.intent = none ∧ a.typespec = "integer" then
      .error (.fatal ("Integer argument with unknown intent: " ++ a.name))
    else if a.typespec = "character" then
      if dimTruthy a then .error (.user "Cannot deal with character arrays")
      else
        match scanArgs rest (j + 1) with
        | .error e => .error e
        | .ok ex => .ok (charSizeArg j :: ex)
    else
      match scanArgs rest (j + 1) with
      | .error e => .error e
      | .ok ex => .ok ex

/-- One emitted statement of the wrapper body, carrying exactly the
    strings the template interpolates:
    declStack src name size is `src name_tmp[size];` (size "1" for the
    scalar temporary); declPtr src name is `src *name_tmp;`; declIdx is
    `int64_t idx;`; declRet ctype is `ctype return_value;`;
    callocStmt name src size is
    `name_tmp = (src *)calloc(size, sizeof(src));`; assertStmt name is
    `assert(name_tmp != NULL);`; copyIn name size src is
    `for (idx = 0; idx < size; ++idx) name_tmp[idx] = (src)name[idx];`;
    copyInScalar name src is `name_tmp[0] = (src)name[0];`;
    callStmt ret fname argv is the call of SRC_FUNC(fname) on argv, with
    ret = none for a bare call, some none for `return_value = call`, and
    some (some c) for `return_value = (c)call`; copyOut name size dst is
    `for (idx = 0; idx < size; ++idx) name[idx] = (dst)name_tmp[idx];`;
    copyOutScalar name dst is `name[0] = (dst)name_tmp[0];`;
    freeStmt name is `free(name_tmp);`; returnStmt is
    `return return_value;`. -/
inductive CStmt where
  | declStack : String → String → String → CStmt
  | declPtr : String → String → CStmt
  | declIdx : CStmt
  | declRet : String → CStmt
  | callocStmt : String → String → String → CStmt
  | assertStmt : String → CStmt
  | copyIn : String → String → String → CStmt
  | copyInScalar : String → String → CStmt
  | callStmt : Option (Option String) → String → List String → CStmt
  | copyOut : String → String → String → CStmt
  | copyOutScalar : String → String → CStmt
  | freeStmt : String → CStmt
  | returnStmt : CStmt
deriving DecidableEq

/-- One parameter of the emitted signature: `dst_ctype *name`, or
    `size_t name` for a character_size pseudo-argument. -/
inductive Param where
  | ptrParam : String → String → Param
  | sizeParam : String → Param
deriving DecidableEq

/-- One rendered routine: the return C type, the symbol macro (SRC_FUNC
    for the prototype, FUNC for the definition), the routine name, the
    parameter list, and the body statements (none for a prototype). -/
structure Rendered where
  retCType : String
  funcMacro : String
  rname : String
  params : List Param
  body : Option (List CStmt)
deriving DecidableEq

/-- integer_args of generate_code (line 152). -/
def integerArgsOf (l : List AArg) : List AArg := l.filter (fun a => a.typespec = "integer")

/-- Temporary declaration per integer argument (template lines 235-243). -/
def declOf (a : AArg) : CStmt :=
  if dimTruthy a ∧ a.constant_dimension then
    .declStack a.src_ctype a.name (a.array_size.getD "")
  else if dimTruthy a then .declPtr a.src_ctype a.name
  else .declStack a.src_ctype a.name "1"

/-- Pre-call statements per integer argument (template lines 250-262):
    heap allocation with its assert for a truthy non-constant dimension,
    then the copy-in when intent includes "in". -/
def preOps (a : AArg) : List CStmt :=
  (if dimTruthy a ∧ ¬a.constant_dimension then
      [.callocStmt a.name a.src_ctype (a.array_size.getD ""), .assertStmt a.name]
    else [])
  ++ (if hasIn a then
        if dimTruthy a then [.copyIn a.name (a.array_size.getD "") a.src_ctype]
        else [.copyInScalar a.name a.src_ctype]
      else [])

/-- Post-call statements per integer argument (template lines 283-294):
    the copy-out when intent includes "out", then the single unconditional
    free for a truthy non-constant dimension. -/
def postOps (a : AArg) : List CStmt :=
  (if hasOut a then
      if dimTruthy a then [.copyOut a.name (a.array_size.getD "") a.dst_ctype]
      else [.copyOutScalar a.name a.dst_ctype]
    else [])
  ++ (if dimTruthy a ∧ ¬a.constant_dimension then [.freeStmt a.name] else [])

/-- The expression passed for one argument at the call site (template
    lines 272-281): 1 for a character_size pseudo-argument, the converted
    temporary for an integer argument, the caller's pointer otherwise. -/
def callArgOf (a : AArg) : String :=
  if a.typespec = "character_size" then "1"
  else if a.typespec = "integer" then a.name ++ "_tmp"
  else a.name

/-- One parameter of the header (template lines 222-229). -/
def paramOf (a : AArg) : Param :=
  if a.typespec = "character_size" then .sizeParam a.name
  else .ptrParam a.dst_ctype a.name

/-- The optional return assignment at the call (template lines 263-271):
    none for a subroutine; for a function, an assignment, with a cast to
    the source-width type when the return typespec is integer. -/
def retCastOf (item : Item) : Option (Option String) :=
  if item.block = "function" then
    some (if item.retType.getD "" = "integer" then some (format_src_type "integer") else none)
  else none

/-- The wrapper body (template lines 234-298): temporary declarations, the
    shared idx declaration when an integer array argument exists, the
    return-value declaration for functions, per-argument pre-call
    statements, the single call, per-argument post-call statements, the
    return.  The body is one linear sequence: the statement language has
    no branch or early-exit construct, as the template emits none. -/
def renderBody (item : Item) (intArgs argsAll : List AArg) : List CStmt :=
  intArgs.map declOf
  ++ (if intArgs.any dimTruthy then [CStmt.declIdx] else [])
  ++ (if item.block = "function" then [CStmt.declRet (format_dst_type (item.retType.getD ""))] else [])
  ++ catMap preOps intArgs
  ++ [CStmt.callStmt (retCastOf item) item.name (argsAll.map callArgOf)]
  ++ catMap postOps intArgs
  ++ (if item.block = "function" then [CStmt.returnStmt] else [])

/-- Embedding of generate_code (lines 150-307): build the argument
    records, annotate them, run the check-and-extend scan, and emit the
    header plus, for the definition, the body statements. -/
def generate_code (item : Item) (proto : Bool) : Except GErr Rendered :=
  match resolveArgs item with
  | .error e => .error e
  | .ok raw =>
    match mapME (annotateArg proto) raw with
    | .error e => .error e
    | .ok annotated =>
      match scanArgs annotated 0 with
      | .error e => .error e
      | .ok extras =>
        .ok { retCType :=
                if item.block = "function" then
                  (if proto then format_src_type (item.retType.getD "")
                   else format_dst_type (item.retType.getD ""))
                else "void",
              funcMacro := if proto then "SRC_FUNC" else "FUNC",
              rname := item.name,
              params := (annotated ++ extras).map paramOf,
              body := if proto then none
                      else some (renderBody item (integerArgsOf annotated) (annotated ++ extras)) }

/-- One routine's generated text: the prototype then the definition, as
    concatenated by generate_signatures (lines 58-61). -/
def genPair (item : Item) : Except GErr (Rendered × Rendered) :=
  match generate_code item true with
  | .error e => .error e
  | .ok p =>
    match generate_code item false with
    | .error e => .error e
    | .ok d => .ok (p, d)

/-- The effective signatures document: routine entries plus the
    skipped_files list stored alongside them in signatures.json. -/
structure Catalog where
  sigs : List (String × Item)
  skippedFiles : List String
deriving DecidableEq

/-- Result of a completed run of generate_signatures: the per-routine code
    pairs written to blaslapack6432.c in inclusion order, the accumulated
    error entries (name, recorded signature if any, cause) in discovery
    order, the dependency listing written to blaslapack6432.d, and the
    process exit status.  Both files are written before the aggregated
    UserError is raised, so they are present even on partial failure. -/
structure RunOut where
  codes : List (String × Rendered × Rendered)
  errors : List (String × Option Item × String)
  depListing : List String
  exitCode : Nat
deriving DecidableEq

/-- The routine loop of generate_signatures (lines 50-67): a missing
    signature or a UserError is appended to the error list and the loop
    continues with the next routine; generated code is collected; any
    other exception (the ValueError of the intent check in particular)
    propagates and aborts the whole run. -/
def genRunLoop (sigs : List (String × Item)) : List String → Except String (List (String × Rendered × Rendered) × List (String × Option Item × String))
  | [] => .ok ([], [])
  | n :: rest =>
    match alookup n sigs with
    | none =>
      match genRunLoop sigs rest with
      | .error m => .error m
      | .ok (c, e) => .ok (c, (n, none, "missing signature") :: e)
    | some item =>
      match genPair item with
      | .ok pd =>
        match genRunLoop sigs rest with
        | .error m => .error m
        | .ok (c, e) => .ok ((n, pd.1, pd.2) :: c, e)
      | .error (.user m) =>
        match genRunLoop sigs rest with
        | .error m2 => .error m2
        | .ok (c, e) => .ok (c, (n, some item, m) :: e)
      | .error (.fatal m) => .error m

/-- Embedding of generate_signatures together with main's exit logic: a
    fatal (uncaught) exception aborts the run before any file is written;
    otherwise both output files are written and the exit status is 0
    exactly when no routine failed (main exits 1 on the aggregated
    UserError). -/
def genRun (names : List String) (cat : Catalog) : Except String RunOut :=
  match genRunLoop cat.sigs names with
  | .error m => .error m
  | .ok (c, e) =>
    .ok { codes := c, errors := e,
          depListing := dedupBasename cat.skippedFiles,
          exitCode := if e.isEmpty then 0 else 1 }

theorem scanArgs_unknown_intent (a : AArg) (rest : List AArg) (j : Nat)
    (hi : a.intent = none) (ht : a.typespec = "integer") :
    scanArgs (a :: rest) j = .error (.fatal ("Integer argument with unknown intent: " ++ a.name)) := by
  simp [scanArgs, hi, ht]

theorem scanArgs_char_array (a : AArg) (rest : List AArg) (j : Nat)
    (ht : a.typespec = "character") (hd : dimTruthy a = true) :
    scanArgs (a :: rest) j = .error (.user "Cannot deal with character arrays") := by
  have hne : ¬(a.intent = none ∧ a.typespec = "integer") := by
    rintro ⟨_, h⟩; rw [ht] at h; exact absurd h (by decide)
  simp [scanArgs, hne, ht, hd]

theorem genPair_err_of_scan (item : Item) (raw : List (String × VarInfo))
    (annotated : List AArg) (e : GErr)
    (h1 : resolveArgs item = .ok raw)
    (h2 : mapME (annotateArg true) raw = .ok annotated)
    (h3 : scanArgs annotated 0 = .error e) :
    genPair item = .error e := by
  simp [genPair, generate_code, h1, h2, h3]

theorem genRun_abort (n : String) (rest : List String) (cat : Catalog) (item : Item) (m : String)
    (hl : alookup n cat.sigs = some item)
    (hp : genPair item = .error (.fatal m)) :
    genRun (n :: rest) cat = .error m := by
  simp [genRun, genRunLoop, hl, hp]

/-- Claim C1 (amended): an integer argument with no recorded intent makes
    generate_code raise ValueError, which neither the per-routine handler
    (it catches only UserError) nor main catches, so the whole run aborts
    at that routine: no failure is accumulated, no remaining routine is
    processed, no aggregated report or output file is produced. -/
theorem c1_unknown_intent_aborts :
    (∀ (a : AArg) (rest : List AArg) (j : Nat), a.intent = none → a.typespec = "integer" →
        scanArgs (a :: rest) j = .error (.fatal ("Integer argument with unknown intent: " ++ a.name)))
    ∧ (∀ (item : Item) (raw : List (String × VarInfo)) (annotated : List AArg) (m : String),
        resolveArgs item = .ok raw → mapME (annotateArg true) raw = .ok annotated →
        scanArgs annotated 0 = .error (.fatal m) → genPair item = .error (.fatal m))
    ∧ (∀ (n : String) (rest : List String) (cat : Catalog) (item : Item) (m : String),
        alookup n cat.sigs = some item → genPair item = .error (.fatal m) →
        genRun (n :: rest) cat = .error m) :=
  ⟨scanArgs_unknown_intent,
   fun item raw annotated m h1 h2 h3 => genPair_err_of_scan item raw annotated (.fatal m) h1 h2 h3,
   genRun_abort⟩

/-- Claim C1 counterexample: a two-routine batch whose first routine has an
    integer argument with unknown intent does not accumulate the failure
    and continue; the run aborts with the uncaught error, so the second
    routine is never generated and no aggregated report is produced. -/
theorem c1_counterexample :
    genRun ["bad", "good"]
      { sigs := [("bad", { name := "bad", block := "subroutine", args := ["n"],
                           vars := [("n", { typespec := "integer" })] }),
                 ("good", { name := "good", block := "subroutine", args := [], vars := [] })],
        skippedFiles := [] }
      = Except.error ("Integer argument with unknown intent: " ++ "n") := by
  rfl

/-- Claim C1 witness: the abort-propagation part of c1_unknown_intent_aborts
    applied to a one-routine batch with the unknown-intent routine. -/
theorem c1_witness :
    genRun ["bad"]
      { sigs := [("bad", { name := "bad", block := "subroutine", args := ["n"],
                           vars := [("n", { typespec := "integer" })] })],
        skippedFiles := [] }
      = Except.error ("Integer argument with unknown intent: " ++ "n") :=
  c1_unknown_intent_aborts.2.2 "bad" []
    { sigs := [("bad", { name := "bad", block := "subroutine", args := ["n"],
                         vars := [("n", { typespec := "integer" })] })],
      skippedFiles := [] }
    { name := "bad", block := "subroutine", args := ["n"],
      vars := [("n", { typespec := "integer" })] }
    ("Integer argument with unknown intent: " ++ "n") rfl rfl

theorem genRunLoop_user_mem :
    ∀ (names : List String) (sigs : List (String × Item))
      (c : List (String × Rendered × Rendered)) (e : List (String × Option Item × String)),
      genRunLoop sigs names = .ok (c, e) →
      ∀ (n : String) (item : Item) (m : String),
        n ∈ names → alookup n sigs = some item → genPair item = .error (.user m) →
        (n, some item, m) ∈ e := by
  intro names
  induction names with
  | nil => intro sigs c e _ n item m hn _ _; simp at hn
  | cons n0 rest ih =>
    intro sigs c e hloop n item m hn hl hp
    rw [genRunLoop] at hloop
    rcases List.mem_cons.mp hn with hn | hn
    · subst hn
      cases hrec : genRunLoop sigs rest with
      | error m2 =>
        rw [hl] at hloop
        simp [hp, hrec] at hloop
      | ok ce =>
        obtain ⟨c', e'⟩ := ce
        rw [hl] at hloop
        simp [hp, hrec] at hloop
        obtain ⟨h1, h2⟩ := hloop
        subst h2
        exact List.mem_cons_self _ _
    · cases hl0 : alookup n0 sigs with
      | none =>
        cases hrec : genRunLoop sigs rest with
        | error m2 => rw [hl0] at hloop; simp [hrec] at hloop
        | ok ce =>
          obtain ⟨c', e'⟩ := ce
          rw [hl0] at hloop
          simp [hrec] at hloop
          obtain ⟨h1, h2⟩ := hloop
          subst h2
          exact List.mem_cons_of_mem _ (ih sigs c' e' hrec n item m hn hl hp)
      | some item0 =>
        cases hp0 : genPair item0 with
        | ok pd0 =>
          cases hrec : genRunLoop sigs rest with
          | error m2 => rw [hl0] at hloop; simp [hp0, hrec] at hloop
          | ok ce =>
            obtain ⟨c', e'⟩ := ce
            rw [hl0] at hloop
            simp [hp0, hrec] at hloop
            obtain ⟨h1, h2⟩ := hloop
            subst h2
            exact ih sigs c' e' hrec n item m hn hl hp
        | error ge =>
          cases ge with
          | user m0 =>
            cases hrec : genRunLoop sigs rest with
            | error m2 => rw [hl0] at hloop; simp [hp0, hrec] at hloop
            | ok ce =>
              obtain ⟨c', e'⟩ := ce
              rw [hl0] at hloop
              simp [hp0, hrec] at hloop
              obtain ⟨h1, h2⟩ := hloop
              subst h2
              exact List.mem_cons_of_mem _ (ih sigs c' e' hrec n item m hn hl hp)
          | fatal m0 =>
            rw [hl0] at hloop
            simp [hp0] at hloop

theorem genRunLoop_ok_mem :
    ∀ (names : List String) (sigs : List (String × Item))
      (c : List (String × Rendered × Rendered)) (e : List (String × Option Item × String)),
      genRunLoop sigs names = .ok (c, e) →
      ∀ (n : String) (item : Item) (pd : Rendered × Rendered),
        n ∈ names → alookup n sigs = some item → genPair item = .ok pd →
        (n, pd.1, pd.2) ∈ c := by
  intro names
  induction names with
  | nil => intro sigs c e _ n item pd hn _ _; simp at hn
  | cons n0 rest ih =>
    intro sigs c e hloop n item pd hn hl hp
    rw [genRunLoop] at hloop
    rcases List.mem_cons.mp hn with hn | hn
    · subst hn
      cases hrec : genRunLoop sigs rest with
      | error m2 =>
        rw [hl] at hloop
        simp [hp, hrec] at hloop
      | ok ce =>
        obtain ⟨c', e'⟩ := ce
        rw [hl] at hloop
        simp [hp, hrec] at hloop
        obtain ⟨h1, h2⟩ := hloop
        subst h1
        exact List.mem_cons_self _ _
    · cases hl0 : alookup n0 sigs with
      | none =>
        cases hrec : genRunLoop sigs rest with
        | error m2 => rw [hl0] at hloop; simp [hrec] at hloop
        | ok ce =>
          obtain ⟨c', e'⟩ := ce
          rw [hl0] at hloop
          simp [hrec] at hloop
          obtain ⟨h1, h2⟩ := hloop
          subst h1
          exact ih sigs c' e' hrec n item pd hn hl hp
      | some item0 =>
        cases hp0 : genPair item0 with
        | ok pd0 =>
          cases hrec : genRunLoop sigs rest with
          | error m2 => rw [hl0] at hloop; simp [hp0, hrec] at hloop
          | ok ce =>
            obtain ⟨c', e'⟩ := ce
            rw [hl0] at hloop
            simp [hp0, hrec] at hloop
            obtain ⟨h1, h2⟩ := hloop
            subst h1
            exact List.mem_cons_of_mem _ (ih sigs c' e' hrec n item pd hn hl hp)
        | error ge =>
          cases ge with
          | user m0 =>
            cases hrec : genRunLoop sigs rest with
            | error m2 => rw [hl0] at hloop; simp [hp0, hrec] at hloop
            | ok ce =>
              obtain ⟨c', e'⟩ := ce
              rw [hl0] at hloop
              simp [hp0, hrec] at hloop
              obtain ⟨h1, h2⟩ := hloop
              subst h1
              exact ih sigs c' e' hrec n item pd hn hl hp
          | fatal m0 =>
            rw [hl0] at hloop
            simp [hp0] at hloop

/-- Claim C6: a character array argument fails synthesis for its routine
    alone through a caught UserError with a descriptive cause; its entry,
    with the recorded signature, joins the accumulated error list while
    every sibling routine whose generation succeeds still has its code
    collected into the written output file; the completion status is zero
    exactly when no routine failed. -/
theorem c6_char_array_partial :
    (∀ (a : AArg) (rest : List AArg) (j : Nat), a.typespec = "character" → dimTruthy a = true →
        scanArgs (a :: rest) j = .error (.user "Cannot deal with character arrays"))
    ∧ (∀ (item : Item) (raw : List (String × VarInfo)) (annotated : List AArg) (m : String),
        resolveArgs item = .ok raw → mapME (annotateArg true) raw = .ok annotated →
        scanArgs annotated 0 = .error (.user m) → genPair item = .error (.user m))
    ∧ (∀ (names : List String) (sigs : List (String × Item))
        (c : List (String × Rendered × Rendered)) (e : List (String × Option Item × String)),
        genRunLoop sigs names = .ok (c, e) →
        ∀ (n : String) (item : Item) (m : String),
          n ∈ names → alookup n sigs = some item → genPair item = .error (.user m) →
          (n, some item, m) ∈ e)
    ∧ (∀ (names : List String) (sigs : List (String × Item))
        (c : List (String × Rendered × Rendered)) (e : List (String × Option Item × String)),
        genRunLoop sigs names = .ok (c, e) →
        ∀ (n : String) (item : Item) (pd : Rendered × Rendered),
          n ∈ names → alookup n sigs = some item → genPair item = .ok pd →
          (n, pd.1, pd.2) ∈ c)
    ∧ (∀ (names : List String) (cat : Catalog) (res : RunOut),
        genRun names cat = .ok res → (res.exitCode = 0 ↔ res.errors = [])) := by
  refine ⟨scanArgs_char_array,
    fun item raw annotated m h1 h2 h3 => genPair_err_of_scan item raw annotated (.user m) h1 h2 h3,
    genRunLoop_user_mem, genRunLoop_ok_mem, ?_⟩
  intro names cat res hrun
  rw [genRun] at hrun
  cases hloop : genRunLoop cat.sigs names with
  | error m => rw [hloop] at hrun; simp at hrun
  | ok ce =>
    obtain ⟨c, e⟩ := ce
    rw [hloop] at hrun
    simp at hrun
    rw [← hrun]
    by_cases he : e.isEmpty
    · simp [he, List.isEmpty_iff.mp he]
    · have : e ≠ [] := fun h => he (by simp [h])
      simp [he, this]

/-- Claim C6 witness: the accumulation part of c6_char_array_partial on a
    concrete batch containing a character-array routine records that
    routine's failure in the aggregated error list. -/
theorem c6_witness :
    ("crou",
      some { name := "crou", block := "subroutine", args := ["c"],
             vars := [("c", { typespec := "character", dimension := some [Dim.str "*"] })] },
      "Cannot deal with character arrays")
      ∈ ([("crou",
            some { name := "crou", block := "subroutine", args := ["c"],
                   vars := [("c", { typespec := "character", dimension := some [Dim.str "*"] })] },
            "Cannot deal with character arrays")]
          : List (String × Option Item × String)) :=
  c6_char_array_partial.2.2.1 ["crou"]
    [("crou", { name := "crou", block := "subroutine", args := ["c"],
                vars := [("c", { typespec := "character", dimension := some [Dim.str "*"] })] })]
    [] _ rfl "crou" _ "Cannot deal with character arrays"
    (List.mem_cons_self _ _) rfl rfl

/-- Occurrence count of a statement in an emitted body. -/
def countStmt (s : CStmt) : List CStmt → Nat
  | [] => 0
  | t :: rest => (if t = s then 1 else 0) + countStmt s rest

theorem countStmt_append (s : CStmt) (l1 l2 : List CStmt) :
    countStmt s (l1 ++ l2) = countStmt s l1 + countStmt s l2 := by
  induction l1 with
  | nil => simp [countStmt]
  | cons hd tl ih => simp [countStmt, ih]; omega

theorem countStmt_zero (s : CStmt) : ∀ (l : List CStmt), (∀ x ∈ l, x ≠ s) → countStmt s l = 0 := by
  intro l
  induction l with
  | nil => intro _; rfl
  | cons hd tl ih =>
    intro h
    have hh := h hd (List.mem_cons_self _ _)
    simp [countStmt, hh, ih (fun x hx => h x (List.mem_cons_of_mem _ hx))]

/-- Statement x occurs at a strictly earlier position than statement y. -/
def SeqBefore (x y : CStmt) (l : List CStmt) : Prop :=
  ∃ i j, i < j ∧ l.get? i = some x ∧ l.get? j = some y

theorem seqBefore_app (x y : CStmt) (l1 l2 : List CStmt) (hx : x ∈ l1) (hy : y ∈ l2) :
    SeqBefore x y (l1 ++ l2) := by
  obtain ⟨i, hi⟩ := mem_getq l1 x hx
  obtain ⟨j, hj⟩ := mem_getq l2 y hy
  have hlt := getq_lt l1 i x hi
  exact ⟨i, l1.length + j, by omega, getq_append_l l1 l2 i x hi, getq_append_r l1 l2 j y hj⟩

theorem seqBefore_mono_r (x y : CStmt) (l1 l2 : List CStmt) (h : SeqBefore x y l2) :
    SeqBefore x y (l1 ++ l2) := by
  obtain ⟨i, j, hij, hi, hj⟩ := h
  exact ⟨l1.length + i, l1.length + j, by omega,
    getq_append_r l1 l2 i x hi, getq_append_r l1 l2 j y hj⟩

theorem seqBefore_mono_l (x y : CStmt) (l1 l2 : List CStmt) (h : SeqBefore x y l1) :
    SeqBefore x y (l1 ++ l2) := by
  obtain ⟨i, j, hij, hi, hj⟩ := h
  exact ⟨i, j, hij, getq_append_l l1 l2 i x hi, getq_append_l l1 l2 j y hj⟩

theorem mem_catMap {α β : Type} (f : α → List β) : ∀ (l : List α) (b : α) (x : β),
    b ∈ l → x ∈ f b → x ∈ catMap f l := by
  intro l
  induction l with
  | nil => intro b x h _; simp at h
  | cons hd tl ih =>
    intro b x hb hx
    rcases List.mem_cons.mp hb with hb | hb
    · subst hb; exact List.mem_append.mpr (Or.inl hx)
    · exact List.mem_append.mpr (Or.inr (ih b x hb hx))

theorem catMap_mem_inv {α β : Type} (f : α → List β) : ∀ (l : List α) (x : β),
    x ∈ catMap f l → ∃ b, b ∈ l ∧ x ∈ f b := by
  intro l
  induction l with
  | nil => intro x h; simp [catMap] at h
  | cons hd tl ih =>
    intro x h
    rcases List.mem_append.mp h with h | h
    · exact ⟨hd, List.mem_cons_self _ _, h⟩
    · obtain ⟨b, hb, hx⟩ := ih x h
      exact ⟨b, List.mem_cons_of_mem _ hb, hx⟩

theorem catMap_split {α β : Type} (f : α → List β) : ∀ (l : List α) (a : α),
    a ∈ l → ∃ l1 l2, catMap f l = l1 ++ (f a ++ l2) := by
  intro l
  induction l with
  | nil => intro a h; simp at h
  | cons hd tl ih =>
    intro a ha
    rcases List.mem_cons.mp ha with ha | ha
    · subst ha
      exact ⟨[], catMap f tl, by simp [catMap]⟩
    · obtain ⟨l1, l2, hsplit⟩ := ih a ha
      exact ⟨f hd ++ l1, l2, by simp [catMap, hsplit]⟩

theorem countStmt_catMap_zero (s : CStmt) (f : AArg → List CStmt) : ∀ (l : List AArg),
    (∀ b ∈ l, countStmt s (f b) = 0) → countStmt s (catMap f l) = 0 := by
  intro l
  induction l with
  | nil => intro _; rfl
  | cons hd tl ih =>
    intro h
    rw [catMap, countStmt_append, h hd (List.mem_cons_self _ _),
      ih (fun b hb => h b (List.mem_cons_of_mem _ hb))]

theorem nodup_names_unique : ∀ (l : List AArg), (l.map AArg.name).Nodup →
    ∀ (a b : AArg), a ∈ l → b ∈ l → a.name = b.name → a = b := by
  intro l
  induction l with
  | nil => intro _ a b ha; simp at ha
  | cons hd tl ih =>
    intro hnd a b ha hb hab
    simp only [List.map_cons, List.nodup_cons] at hnd
    rcases List.mem_cons.mp ha with ha | ha <;> rcases List.mem_cons.mp hb with hb | hb
    · rw [ha, hb]
    · exfalso
      apply hnd.1
      rw [ha] at hab
      exact List.mem_map.mpr ⟨b, hb, hab.symm⟩
    · exfalso
      apply hnd.1
      rw [hb] at hab
      exact List.mem_map.mpr ⟨a, ha, hab⟩
    · exact ih hnd.2 a b ha hb hab

theorem countStmt_catMap_single (s : CStmt) (f : AArg → List CStmt) (a : AArg) :
    ∀ (l : List AArg), a ∈ l → (l.map AArg.name).Nodup →
      (∀ b : AArg, b.name ≠ a.name → countStmt s (f b) = 0) →
      countStmt s (catMap f l) = countStmt s (f a) := by
  intro l
  induction l with
  | nil => intro h; simp at h
  | cons hd tl ih =>
    intro ha hnd hzero
    simp only [List.map_cons, List.nodup_cons] at hnd
    rw [catMap, countStmt_append]
    rcases List.mem_cons.mp ha with ha | ha
    · subst ha
      have htl : countStmt s (catMap f tl) = 0 := by
        apply countStmt_catMap_zero
        intro b hb
        apply hzero
        intro hEq
        exact hnd.1 (List.mem_map.mpr ⟨b, hb, hEq⟩)
      rw [htl]
      omega
    · have hne : hd.name ≠ a.name := by
        intro hEq
        exact hnd.1 (List.mem_map.mpr ⟨a, ha, hEq.symm⟩)
      rw [hzero hd hne, ih ha hnd.2 hzero]
      omega

theorem getq_map {α β : Type} (f : α → β) : ∀ (l : List α) (i : Nat) (x : α),
    l.get? i = some x → (l.map f).get? i = some (f x) := by
  intro l
  induction l with
  | nil => intro i x h; simp at h
  | cons hd tl ih =>
    intro i x h
    cases i with
    | zero => simp at h; simp [h]
    | succ j =>
      simp only [List.get?] at h
      simpa using ih j x h

theorem mapME_mem {α β : Type} (f : α → Except GErr β) : ∀ (l : List α) (out : List β),
    mapME f l = .ok out → ∀ b ∈ out, ∃ a, a ∈ l ∧ f a = .ok b := by
  intro l
  induction l with
  | nil =>
    intro out h b hb
    simp [mapME] at h
    subst h
    simp at hb
  | cons hd tl ih =>
    intro out h b hb
    rw [mapME] at h
    cases hf : f hd with
    | error e => rw [hf] at h; simp at h
    | ok b0 =>
      rw [hf] at h
      cases hrec : mapME f tl with
      | error e => rw [hrec] at h; simp at h
      | ok bs =>
        rw [hrec] at h
        simp at h
        subst h
        rcases List.mem_cons.mp hb with hb | hb
        · exact ⟨hd, List.mem_cons_self _ _, by rw [hb]; exact hf⟩
        · obtain ⟨a, ha, hfa⟩ := ih bs hrec b hb
          exact ⟨a, List.mem_cons_of_mem _ ha, hfa⟩

theorem mapME_getq {α β : Type} (f : α → Except GErr β) : ∀ (l : List α) (out : List β) (i : Nat) (x : α),
    mapME f l = .ok out → l.get? i = some x → ∃ y, f x = .ok y ∧ out.get? i = some y := by
  intro l
  induction l with
  | nil => intro out i x _ h; simp at h
  | cons hd tl ih =>
    intro out i x h hg
    rw [mapME] at h
    cases hf : f hd with
    | error e => rw [hf] at h; simp at h
    | ok b0 =>
      rw [hf] at h
      cases hrec : mapME f tl with
      | error e => rw [hrec] at h; simp at h
      | ok bs =>
        rw [hrec] at h
        simp at h
        subst h
        cases i with
        | zero =>
          simp at hg
          subst hg
          exact ⟨b0, hf, by simp⟩
        | succ j =>
          simp only [List.get?] at hg
          obtain ⟨y, hy, hout⟩ := ih bs j x hrec hg
          exact ⟨y, hy, by simpa using hout⟩

theorem annotateArg_fields (proto : Bool) (p : String × VarInfo) (a : AArg)
    (h : annotateArg proto p = .ok a) :
    a.name = p.1 ∧ a.typespec = p.2.typespec ∧ a.intent = p.2.intent
      ∧ a.dimension = p.2.dimension
      ∧ a.src_ctype = format_src_type p.2.typespec
      ∧ a.dst_ctype = (if proto then format_src_type p.2.typespec else format_dst_type p.2.typespec) := by
  rw [annotateArg] at h
  by_cases ht : p.2.typespec = "integer"
  · rw [if_pos ht] at h
    cases hd : p.2.dimension with
    | some dl =>
      simp only [hd] at h
      cases hfa : format_array_size dl with
      | error e => simp only [hfa] at h; simp at h
      | ok sz =>
        simp only [hfa] at h
        simp at h
        rw [← h]
        simp [hd]
    | none =>
      simp only [hd] at h
      simp at h
      rw [← h]
      simp [hd]
  · rw [if_neg ht] at h
    simp at h
    rw [← h]
    simp

theorem annotateArg_array (proto : Bool) (p : String × VarInfo) (a : AArg) (dl : List Dim) (sz : String)
    (h : annotateArg proto p = .ok a) (ht : p.2.typespec = "integer")
    (hd : p.2.dimension = some dl) (hfa : format_array_size dl = .ok sz) :
    a.array_size = some sz ∧ a.constant_dimension = !(strHasStar sz) := by
  rw [annotateArg, if_pos ht] at h
  simp only [hd, hfa] at h
  simp at h
  rw [← h]
  simp

theorem declOf_ne_free (nm : String) (b : AArg) : declOf b ≠ CStmt.freeStmt nm := by
  rw [declOf]
  split
  · simp
  · split <;> simp

theorem preOps_ne_free (nm : String) (b : AArg) : ∀ x ∈ preOps b, x ≠ CStmt.freeStmt nm := by
  intro x hx
  rw [preOps] at hx
  rcases List.mem_append.mp hx with hx | hx
  · split at hx
    · simp at hx
      rcases hx with hx | hx <;> (rw [hx]; simp)
    · simp at hx
  · split at hx
    · split at hx <;> (simp at hx; rw [hx]; simp)
    · simp at hx

theorem countStmt_postOps_free_self (a : AArg) (hdim : dimTruthy a = true)
    (hconst : a.constant_dimension = false) :
    countStmt (CStmt.freeStmt a.name) (postOps a) = 1 := by
  rw [postOps, countStmt_append]
  have h2 : (if dimTruthy a ∧ ¬a.constant_dimension then [CStmt.freeStmt a.name] else [])
      = [CStmt.freeStmt a.name] := if_pos ⟨hdim, by simp [hconst]⟩
  rw [h2]
  have h1 : countStmt (CStmt.freeStmt a.name)
      (if hasOut a then
        if dimTruthy a then [CStmt.copyOut a.name (a.array_size.getD "") a.dst_ctype]
        else [CStmt.copyOutScalar a.name a.dst_ctype]
       else []) = 0 := by
    split <;> (try split) <;> simp [countStmt]
  rw [h1]
  simp [countStmt]

theorem countStmt_postOps_free_other (nm : String) (b : AArg) (hne : b.name ≠ nm) :
    countStmt (CStmt.freeStmt nm) (postOps b) = 0 := by
  apply countStmt_zero
  intro x hx
  rw [postOps] at hx
  rcases List.mem_append.mp hx with hx | hx
  · split at hx
    · split at hx <;> (simp at hx; rw [hx]; simp)
    · simp at hx
  · split at hx
    · simp at hx
      rw [hx]
      simp [hne]
    · simp at hx

theorem generate_code_ok (item : Item) (proto : Bool) (raw : List (String × VarInfo))
    (annotated extras : List AArg)
    (h1 : resolveArgs item = .ok raw) (h2 : mapME (annotateArg proto) raw = .ok annotated)
    (h3 : scanArgs annotated 0 = .ok extras) :
    generate_code item proto = .ok
      { retCType := if item.block = "function" then
            (if proto then format_src_type (item.retType.getD "")
             else format_dst_type (item.retType.getD ""))
          else "void",
        funcMacro := if proto then "SRC_FUNC" else "FUNC",
        rname := item.name,
        params := (annotated ++ extras).map paramOf,
        body := if proto then none
                else some (renderBody item (integerArgsOf annotated) (annotated ++ extras)) } := by
  simp [generate_code, h1, h2, h3]

theorem renderBody_heap_props (item : Item) (intArgs argsAll : List AArg) (a : AArg)
    (ha : a ∈ intArgs) (hnd : (intArgs.map AArg.name).Nodup)
    (hdim : dimTruthy a = true) (hconst : a.constant_dimension = false) :
    countStmt (CStmt.freeStmt a.name) (renderBody item intArgs argsAll) = 1
    ∧ SeqBefore (CStmt.callocStmt a.name a.src_ctype (a.array_size.getD ""))
        (CStmt.callStmt (retCastOf item) item.name (argsAll.map callArgOf))
        (renderBody item intArgs argsAll)
    ∧ SeqBefore (CStmt.callStmt (retCastOf item) item.name (argsAll.map callArgOf))
        (CStmt.freeStmt a.name) (renderBody item intArgs argsAll)
    ∧ (hasOut a = true →
        SeqBefore (CStmt.copyOut a.name (a.array_size.getD "") a.dst_ctype)
          (CStmt.freeStmt a.name) (renderBody item intArgs argsAll)) := by
  have hpos : (dimTruthy a = true ∧ ¬(a.constant_dimension = true)) := ⟨hdim, by simp [hconst]⟩
  have hcalloc_mem : CStmt.callocStmt a.name a.src_ctype (a.array_size.getD "") ∈ preOps a := by
    rw [preOps]
    apply List.mem_append.mpr
    left
    rw [if_pos hpos]
    exact List.mem_cons_self _ _
  have hfree_mem : CStmt.freeStmt a.name ∈ postOps a := by
    rw [postOps]
    apply List.mem_append.mpr
    right
    rw [if_pos hpos]
    exact List.mem_cons_self _ _
  refine ⟨?_, ?_, ?_, ?_⟩
  · rw [renderBody]
    rw [countStmt_append, countStmt_append, countStmt_append, countStmt_append,
      countStmt_append, countStmt_append]
    have c1 : countStmt (CStmt.freeStmt a.name) (intArgs.map declOf) = 0 := by
      apply countStmt_zero
      intro x hx
      obtain ⟨b, hb, hbe⟩ := List.mem_map.mp hx
      rw [← hbe]
      exact declOf_ne_free a.name b
    have c2 : countStmt (CStmt.freeStmt a.name)
        (if intArgs.any dimTruthy then [CStmt.declIdx] else []) = 0 := by
      split <;> simp [countStmt]
    have c3 : countStmt (CStmt.freeStmt a.name)
        (if item.block = "function" then [CStmt.declRet (format_dst_type (item.retType.getD ""))] else []) = 0 := by
      split <;> simp [countStmt]
    have c4 : countStmt (CStmt.freeStmt a.name) (catMap preOps intArgs) = 0 := by
      apply countStmt_catMap_zero
      intro b _
      exact countStmt_zero _ _ (preOps_ne_free a.name b)
    have c5 : countStmt (CStmt.freeStmt a.name)
        [CStmt.callStmt (retCastOf item) item.name (argsAll.map callArgOf)] = 0 := by
      simp [countStmt]
    have c6 : countStmt (CStmt.freeStmt a.name) (catMap postOps intArgs) = 1 := by
      rw [countStmt_catMap_single (CStmt.freeStmt a.name) postOps a intArgs ha hnd
        (fun b hbne => countStmt_postOps_free_other a.name b hbne)]
      exact countStmt_postOps_free_self a hdim hconst
    have c7 : countStmt (CStmt.freeStmt a.name)
        (if item.block = "function" then [CStmt.returnStmt] else []) = 0 := by
      split <;> simp [countStmt]
    rw [c1, c2, c3, c4, c5, c6, c7]
  · rw [renderBody]
    apply seqBefore_mono_l
    apply seqBefore_mono_l
    apply seqBefore_app
    · exact List.mem_append.mpr (Or.inr (mem_catMap preOps intArgs a _ ha hcalloc_mem))
    · exact List.mem_cons_self _ _
  · rw [renderBody]
    apply seqBefore_mono_l
    apply seqBefore_app
    · exact List.mem_append.mpr (Or.inr (List.mem_cons_self _ _))
    · exact mem_catMap postOps intArgs a _ ha hfree_mem
  · intro hout
    obtain ⟨l1, l2, hs⟩ := catMap_split postOps intArgs a ha
    have hinner : SeqBefore (CStmt.copyOut a.name (a.array_size.getD "") a.dst_ctype)
        (CStmt.freeStmt a.name) (postOps a) := by
      rw [postOps, if_pos hout, if_pos hdim, if_pos hpos]
      exact seqBefore_app _ _ _ _ (List.mem_cons_self _ _) (List.mem_cons_self _ _)
    rw [renderBody]
    apply seqBefore_mono_l
    apply seqBefore_mono_r
    rw [hs]
    apply seqBefore_mono_r
    apply seqBefore_mono_l
    exact hinner

/-- Claim C7: for an integer array argument whose dimension is runtime
    dependent (its formatted size contains a dereference, so
    constant_dimension is false), the emitted destination-width definition
    allocates a source-width (SRC_INT) temporary sized by the resolved
    extent before the underlying call, and emits exactly one release of
    that temporary, after the call and after the copy-out when the
    argument is written back; the body is a single linear statement
    sequence, so the release is unconditional. -/
theorem c7_heap_temporary :
    ∀ (item : Item) (raw : List (String × VarInfo)) (annotated extras : List AArg) (a : AArg),
      resolveArgs item = .ok raw →
      mapME (annotateArg false) raw = .ok annotated →
      scanArgs annotated 0 = .ok extras →
      a ∈ integerArgsOf annotated →
      dimTruthy a = true →
      a.constant_dimension = false →
      ((integerArgsOf annotated).map AArg.name).Nodup →
      ∃ r body, generate_code item false = .ok r ∧ r.body = some body
        ∧ a.src_ctype = "SRC_INT"
        ∧ countStmt (CStmt.freeStmt a.name) body = 1
        ∧ SeqBefore (CStmt.callocStmt a.name a.src_ctype (a.array_size.getD ""))
            (CStmt.callStmt (retCastOf item) item.name ((annotated ++ extras).map callArgOf)) body
        ∧ SeqBefore (CStmt.callStmt (retCastOf item) item.name ((annotated ++ extras).map callArgOf))
            (CStmt.freeStmt a.name) body
        ∧ (hasOut a = true →
            SeqBefore (CStmt.copyOut a.name (a.array_size.getD "") a.dst_ctype)
              (CStmt.freeStmt a.name) body) := by
  intro item raw annotated extras a h1 h2 h3 ha hdim hconst hnd
  have hok := generate_code_ok item false raw annotated extras h1 h2 h3
  have hmemf := List.mem_filter.mp ha
  have htys : a.typespec = "integer" := by simpa using hmemf.2
  obtain ⟨p, hp, hann⟩ := mapME_mem (annotateArg false) raw annotated h2 a hmemf.1
  obtain ⟨-, hty, -, -, hsrc, -⟩ := annotateArg_fields false p a hann
  have hsrcInt : a.src_ctype = "SRC_INT" := by
    rw [hsrc, ← hty, htys]
    rfl
  have hprops := renderBody_heap_props item (integerArgsOf annotated) (annotated ++ extras) a
    ha hnd hdim hconst
  exact ⟨_, _, hok, rfl, hsrcInt, hprops.1, hprops.2.1, hprops.2.2.1, hprops.2.2.2⟩

/-- Claim C7 witness: c7_heap_temporary applied to a dgetrf-like routine
    whose ipiv argument has dimension min(m, n). -/
theorem c7_witness :
    ∃ r body,
      generate_code
        { name := "dgetrf", block := "subroutine", args := ["m", "n", "ipiv"],
          vars := [("m", { typespec := "integer", intent := some ["in"] }),
                   ("n", { typespec := "integer", intent := some ["in"] }),
                   ("ipiv", { typespec := "integer", intent := some ["out"],
                              dimension := some [Dim.dmin "m" "n"] })] } false = .ok r
      ∧ r.body = some body
      ∧ countStmt (CStmt.freeStmt "ipiv") body = 1 := by
  obtain ⟨r, body, hok, hbody, -, hcount, -⟩ :=
    c7_heap_temporary
      { name := "dgetrf", block := "subroutine", args := ["m", "n", "ipiv"],
        vars := [("m", { typespec := "integer", intent := some ["in"] }),
                 ("n", { typespec := "integer", intent := some ["in"] }),
                 ("ipiv", { typespec := "integer", intent := some ["out"],
                            dimension := some [Dim.dmin "m" "n"] })] }
      [("m", { typespec := "integer", intent := some ["in"] }),
       ("n", { typespec := "integer", intent := some ["in"] }),
       ("ipiv", { typespec := "integer", intent := some ["out"],
                  dimension := some [Dim.dmin "m" "n"] })]
      [{ name := "m", typespec := "integer", intent := some ["in"], dimension := none,
         dst_ctype := "INT", src_ctype := "SRC_INT", array_size := none,
         constant_dimension := false },
       { name := "n", typespec := "integer", intent := some ["in"], dimension := none,
         dst_ctype := "INT", src_ctype := "SRC_INT", array_size := none,
         constant_dimension := false },
       { name := "ipiv", typespec := "integer", intent := some ["out"],
         dimension := some [Dim.dmin "m" "n"], dst_ctype := "INT", src_ctype := "SRC_INT",
         array_size := some "MIN(*m, *n)", constant_dimension := false }]
      []
      { name := "ipiv", typespec := "integer", intent := some ["out"],
        dimension := some [Dim.dmin "m" "n"], dst_ctype := "INT", src_ctype := "SRC_INT",
        array_size := some "MIN(*m, *n)", constant_dimension := false }
      rfl rfl rfl (by decide) rfl rfl (by decide)
  exact ⟨r, body, hok, hbody, hcount⟩

theorem preOps_mem_cases (b : AArg) : ∀ x ∈ preOps b,
    x = CStmt.callocStmt b.name b.src_ctype (b.array_size.getD "")
    ∨ x = CStmt.assertStmt b.name
    ∨ x = CStmt.copyIn b.name (b.array_size.getD "") b.src_ctype
    ∨ x = CStmt.copyInScalar b.name b.src_ctype := by
  intro x hx
  rw [preOps] at hx
  rcases List.mem_append.mp hx with hx | hx
  · split at hx
    · simp at hx
      rcases hx with hx | hx
      · exact Or.inl hx
      · exact Or.inr (Or.inl hx)
    · simp at hx
  · split at hx
    · split at hx
      · simp at hx
        exact Or.inr (Or.inr (Or.inl hx))
      · simp at hx
        exact Or.inr (Or.inr (Or.inr hx))
    · simp at hx

theorem postOps_mem_cases (b : AArg) : ∀ x ∈ postOps b,
    x = CStmt.copyOut b.name (b.array_size.getD "") b.dst_ctype
    ∨ x = CStmt.copyOutScalar b.name b.dst_ctype
    ∨ x = CStmt.freeStmt b.name := by
  intro x hx
  rw [postOps] at hx
  rcases List.mem_append.mp hx with hx | hx
  · split at hx
    · split at hx
      · simp at hx
        exact Or.inl hx
      · simp at hx
        exact Or.inr (Or.inl hx)
    · simp at hx
  · split at hx
    · simp at hx
      exact Or.inr (Or.inr hx)
    · simp at hx

theorem declOf_cases (b : AArg) :
    declOf b = CStmt.declStack b.src_ctype b.name (b.array_size.getD "")
    ∨ declOf b = CStmt.declPtr b.src_ctype b.name
    ∨ declOf b = CStmt.declStack b.src_ctype b.name "1" := by
  rw [declOf]
  split
  · exact Or.inl rfl
  · split
    · exact Or.inr (Or.inl rfl)
    · exact Or.inr (Or.inr rfl)

theorem countStmt_map_declOf_zero (s : CStmt) (l : List AArg)
    (h : ∀ b : AArg, declOf b ≠ s) : countStmt s (l.map declOf) = 0 := by
  apply countStmt_zero
  intro x hx
  obtain ⟨b, hb, hbe⟩ := List.mem_map.mp hx
  rw [← hbe]
  exact h b

theorem countStmt_preOps_copyIn_self (a : AArg) (hin : hasIn a = true)
    (hdim : dimTruthy a = true) (hconst : a.constant_dimension = true) :
    countStmt (CStmt.copyIn a.name (a.array_size.getD "") a.src_ctype) (preOps a) = 1 := by
  rw [preOps, countStmt_append]
  have h0 : (if dimTruthy a ∧ ¬a.constant_dimension then
      [CStmt.callocStmt a.name a.src_ctype (a.array_size.getD ""), CStmt.assertStmt a.name]
    else []) = [] := if_neg (by simp [hconst])
  rw [h0, if_pos hin, if_pos hdim]
  simp [countStmt]

theorem countStmt_preOps_copyIn_other (nm sz src : String) (b : AArg) (hne : b.name ≠ nm) :
    countStmt (CStmt.copyIn nm sz src) (preOps b) = 0 := by
  apply countStmt_zero
  intro x hx
  rcases preOps_mem_cases b x hx with h | h | h | h <;> (rw [h]; simp [hne])

theorem countStmt_postOps_copyIn_zero (nm sz src : String) (b : AArg) :
    countStmt (CStmt.copyIn nm sz src) (postOps b) = 0 := by
  apply countStmt_zero
  intro x hx
  rcases postOps_mem_cases b x hx with h | h | h <;> (rw [h]; simp)

theorem countStmt_postOps_copyOut_self (a : AArg) (hout : hasOut a = true)
    (hdim : dimTruthy a = true) :
    countStmt (CStmt.copyOut a.name (a.array_size.getD "") a.dst_ctype) (postOps a) = 1 := by
  rw [postOps, countStmt_append, if_pos hout, if_pos hdim]
  have h2 : countStmt (CStmt.copyOut a.name (a.array_size.getD "") a.dst_ctype)
      (if dimTruthy a ∧ ¬a.constant_dimension then [CStmt.freeStmt a.name] else []) = 0 := by
    split <;> simp [countStmt]
  rw [h2]
  simp [countStmt]

theorem countStmt_postOps_copyOut_other (nm sz dst : String) (b : AArg) (hne : b.name ≠ nm) :
    countStmt (CStmt.copyOut nm sz dst) (postOps b) = 0 := by
  apply countStmt_zero
  intro x hx
  rcases postOps_mem_cases b x hx with h | h | h <;> (rw [h]; simp [hne])

theorem countStmt_preOps_copyOut_zero (nm sz dst : String) (b : AArg) :
    countStmt (CStmt.copyOut nm sz dst) (preOps b) = 0 := by
  apply countStmt_zero
  intro x hx
  rcases preOps_mem_cases b x hx with h | h | h | h <;> (rw [h]; simp)

theorem countStmt_postOps_free_noheap (nm : String) (b : AArg)
    (h : b.constant_dimension = true) : countStmt (CStmt.freeStmt nm) (postOps b) = 0 := by
  rw [postOps, countStmt_append]
  have h2 : (if dimTruthy b ∧ ¬b.constant_dimension then [CStmt.freeStmt b.name] else [])
      = [] := if_neg (by simp [h])
  rw [h2]
  have h1 : countStmt (CStmt.freeStmt nm)
      (if hasOut b then
        if dimTruthy b then [CStmt.copyOut b.name (b.array_size.getD "") b.dst_ctype]
        else [CStmt.copyOutScalar b.name b.dst_ctype]
       else []) = 0 := by
    split <;> (try split) <;> simp [countStmt]
  rw [h1]
  simp [countStmt]

theorem countStmt_preOps_calloc_other (nm src sz : String) (b : AArg) (hne : b.name ≠ nm) :
    countStmt (CStmt.callocStmt nm src sz) (preOps b) = 0 := by
  apply countStmt_zero
  intro x hx
  rcases preOps_mem_cases b x hx with h | h | h | h <;> (rw [h]; simp [hne])

theorem countStmt_preOps_calloc_noheap (nm src sz : String) (b : AArg)
    (h : b.constant_dimension = true) : countStmt (CStmt.callocStmt nm src sz) (preOps b) = 0 := by
  rw [preOps, countStmt_append]
  have h0 : (if dimTruthy b ∧ ¬b.constant_dimension then
      [CStmt.callocStmt b.name b.src_ctype (b.array_size.getD ""), CStmt.assertStmt b.name]
    else []) = [] := if_neg (by simp [h])
  rw [h0]
  have h1 : countStmt (CStmt.callocStmt nm src sz)
      (if hasIn b then
        if dimTruthy b then [CStmt.copyIn b.name (b.array_size.getD "") b.src_ctype]
        else [CStmt.copyInScalar b.name b.src_ctype]
       else []) = 0 := by
    split <;> (try split) <;> simp [countStmt]
  rw [h1]
  simp [countStmt]

theorem renderBody_const_props (item : Item) (intArgs argsAll : List AArg) (a : AArg)
    (ha : a ∈ intArgs) (hnd : (intArgs.map AArg.name).Nodup)
    (hdim : dimTruthy a = true) (hconst : a.constant_dimension = true)
    (hin : hasIn a = true) (hout : hasOut a = true) :
    countStmt (CStmt.copyIn a.name (a.array_size.getD "") a.src_ctype)
      (renderBody item intArgs argsAll) = 1
    ∧ countStmt (CStmt.copyOut a.name (a.array_size.getD "") a.dst_ctype)
      (renderBody item intArgs argsAll) = 1
    ∧ CStmt.declStack a.src_ctype a.name (a.array_size.getD "") ∈ renderBody item intArgs argsAll
    ∧ countStmt (CStmt.freeStmt a.name) (renderBody item intArgs argsAll) = 0
    ∧ countStmt (CStmt.callocStmt a.name a.src_ctype (a.array_size.getD ""))
      (renderBody item intArgs argsAll) = 0 := by
  refine ⟨?_, ?_, ?_, ?_, ?_⟩
  · rw [renderBody]
    rw [countStmt_append, countStmt_append, countStmt_append, countStmt_append,
      countStmt_append, countStmt_append]
    have c1 : countStmt (CStmt.copyIn a.name (a.array_size.getD "") a.src_ctype)
        (intArgs.map declOf) = 0 := by
      apply countStmt_map_declOf_zero
      intro b
      rcases declOf_cases b with h | h | h <;> (rw [h]; simp)
    have c2 : countStmt (CStmt.copyIn a.name (a.array_size.getD "") a.src_ctype)
        (if intArgs.any dimTruthy then [CStmt.declIdx] else []) = 0 := by
      split <;> simp [countStmt]
    have c3 : countStmt (CStmt.copyIn a.name (a.array_size.getD "") a.src_ctype)
        (if item.block = "function" then [CStmt.declRet (format_dst_type (item.retType.getD ""))] else []) = 0 := by
      split <;> simp [countStmt]
    have c4 : countStmt (CStmt.copyIn a.name (a.array_size.getD "") a.src_ctype)
        (catMap preOps intArgs) = 1 := by
      rw [countStmt_catMap_single _ preOps a intArgs ha hnd
        (fun b hbne => countStmt_preOps_copyIn_other a.name _ _ b hbne)]
      exact countStmt_preOps_copyIn_self a hin hdim hconst
    have c5 : countStmt (CStmt.copyIn a.name (a.array_size.getD "") a.src_ctype)
        [CStmt.callStmt (retCastOf item) item.name (argsAll.map callArgOf)] = 0 := by
      simp [countStmt]
    have c6 : countStmt (CStmt.copyIn a.name (a.array_size.getD "") a.src_ctype)
        (catMap postOps intArgs) = 0 :=
      countStmt_catMap_zero _ _ _ (fun b _ => countStmt_postOps_copyIn_zero a.name _ _ b)
    have c7 : countStmt (CStmt.copyIn a.name (a.array_size.getD "") a.src_ctype)
        (if item.block = "function" then [CStmt.returnStmt] else []) = 0 := by
      split <;> simp [countStmt]
    rw [c1, c2, c3, c4, c5, c6, c7]
  · rw [renderBody]
    rw [countStmt_append, countStmt_append, countStmt_append, countStmt_append,
      countStmt_append, countStmt_append]
    have c1 : countStmt (CStmt.copyOut a.name (a.array_size.getD "") a.dst_ctype)
        (intArgs.map declOf) = 0 := by
      apply countStmt_map_declOf_zero
      intro b
      rcases declOf_cases b with h | h | h <;> (rw [h]; simp)
    have c2 : countStmt (CStmt.copyOut a.name (a.array_size.getD "") a.dst_ctype)
        (if intArgs.any dimTruthy then [CStmt.declIdx] else []) = 0 := by
      split <;> simp [countStmt]
    have c3 : countStmt (CStmt.copyOut a.name (a.array_size.getD "") a.dst_ctype)
        (if item.block = "function" then [CStmt.declRet (format_dst_type (item.retType.getD ""))] else []) = 0 := by
      split <;> simp [countStmt]
    have c4 : countStmt (CStmt.copyOut a.name (a.array_size.getD "") a.dst_ctype)
        (catMap preOps intArgs) = 0 :=
      countStmt_catMap_zero _ _ _ (fun b _ => countStmt_preOps_copyOut_zero a.name _ _ b)
    have c5 : countStmt (CStmt.copyOut a.name (a.array_size.getD "") a.dst_ctype)
        [CStmt.callStmt (retCastOf item) item.name (argsAll.map callArgOf)] = 0 := by
      simp [countStmt]
    have c6 : countStmt (CStmt.copyOut a.name (a.array_size.getD "") a.dst_ctype)
        (catMap postOps intArgs) = 1 := by
      rw [countStmt_catMap_single _ postOps a intArgs ha hnd
        (fun b hbne => countStmt_postOps_copyOut_other a.name _ _ b hbne)]
      exact countStmt_postOps_copyOut_self a hout hdim
    have c7 : countStmt (CStmt.copyOut a.name (a.array_size.getD "") a.dst_ctype)
        (if item.block = "function" then [CStmt.returnStmt] else []) = 0 := by
      split <;> simp [countStmt]
    rw [c1, c2, c3, c4, c5, c6, c7]
  · have hdecl : declOf a = CStmt.declStack a.src_ctype a.name (a.array_size.getD "") := by
      rw [declOf, if_pos ⟨hdim, hconst⟩]
    rw [renderBody]
    apply List.mem_append.mpr
    left
    apply List.mem_append.mpr
    left
    apply List.mem_append.mpr
    left
    apply List.mem_append.mpr
    left
    apply List.mem_append.mpr
    left
    apply List.mem_append.mpr
    left
    exact List.mem_map.mpr ⟨a, ha, hdecl⟩
  · rw [renderBody]
    rw [countStmt_append, countStmt_append, countStmt_append, countStmt_append,
      countStmt_append, countStmt_append]
    have c1 : countStmt (CStmt.freeStmt a.name) (intArgs.map declOf) = 0 := by
      apply countStmt_map_declOf_zero
      intro b
      exact declOf_ne_free a.name b
    have c2 : countStmt (CStmt.freeStmt a.name)
        (if intArgs.any dimTruthy then [CStmt.declIdx] else []) = 0 := by
      split <;> simp [countStmt]
    have c3 : countStmt (CStmt.freeStmt a.name)
        (if item.block = "function" then [CStmt.declRet (format_dst_type (item.retType.getD ""))] else []) = 0 := by
      split <;> simp [countStmt]
    have c4 : countStmt (CStmt.freeStmt a.name) (catMap preOps intArgs) = 0 :=
      countStmt_catMap_zero _ _ _ (fun b _ => countStmt_zero _ _ (preOps_ne_free a.name b))
    have c5 : countStmt (CStmt.freeStmt a.name)
        [CStmt.callStmt (retCastOf item) item.name (argsAll.map callArgOf)] = 0 := by
      simp [countStmt]
    have c6 : countStmt (CStmt.freeStmt a.name) (catMap postOps intArgs) = 0 := by
      apply countStmt_catMap_zero
      intro b hb
      by_cases hbn : b.name = a.name
      · have hba : b = a := nodup_names_unique intArgs hnd b a hb ha hbn
        rw [hba]
        exact countStmt_postOps_free_noheap a.name a hconst
      · exact countStmt_postOps_free_other a.name b hbn
    have c7 : countStmt (CStmt.freeStmt a.name)
        (if item.block = "function" then [CStmt.returnStmt] else []) = 0 := by
      split <;> simp [countStmt]
    rw [c1, c2, c3, c4, c5, c6, c7]
  · rw [renderBody]
    rw [countStmt_append, countStmt_append, countStmt_append, countStmt_append,
      countStmt_append, countStmt_append]
    have c1 : countStmt (CStmt.callocStmt a.name a.src_ctype (a.array_size.getD ""))
        (intArgs.map declOf) = 0 := by
      apply countStmt_map_declOf_zero
      intro b
      rcases declOf_cases b with h | h | h <;> (rw [h]; simp)
    have c2 : countStmt (CStmt.callocStmt a.name a.src_ctype (a.array_size.getD ""))
        (if intArgs.any dimTruthy then [CStmt.declIdx] else []) = 0 := by
      split <;> simp [countStmt]
    have c3 : countStmt (CStmt.callocStmt a.name a.src_ctype (a.array_size.getD ""))
        (if item.block = "function" then [CStmt.declRet (format_dst_type (item.retType.getD ""))] else []) = 0 := by
      split <;> simp [countStmt]
    have c4 : countStmt (CStmt.callocStmt a.name a.src_ctype (a.array_size.getD ""))
        (catMap preOps intArgs) = 0 := by
      apply countStmt_catMap_zero
      intro b hb
      by_cases hbn : b.name = a.name
      · have hba : b = a := nodup_names_unique intArgs hnd b a hb ha hbn
        rw [hba]
        exact countStmt_preOps_calloc_noheap a.name _ _ a hconst
      · exact countStmt_preOps_calloc_other a.name _ _ b hbn
    have c5 : countStmt (CStmt.callocStmt a.name a.src_ctype (a.array_size.getD ""))
        [CStmt.callStmt (retCastOf item) item.name (argsAll.map callArgOf)] = 0 := by
      simp [countStmt]
    have c6 : countStmt (CStmt.callocStmt a.name a.src_ctype (a.array_size.getD ""))
        (catMap postOps intArgs) = 0 := by
      apply countStmt_catMap_zero
      intro b _
      apply countStmt_zero
      intro x hx
      rcases postOps_mem_cases b x hx with h | h | h <;> (rw [h]; simp)
    have c7 : countStmt (CStmt.callocStmt a.name a.src_ctype (a.array_size.getD ""))
        (if item.block = "function" then [CStmt.returnStmt] else []) = 0 := by
      split <;> simp [countStmt]
    rw [c1, c2, c3, c4, c5, c6, c7]

/-- Claim C8: for an integer array argument with intent in-out and constant
    dimension 3, the generated wrapper declares a stack temporary of extent
    3, copies exactly 3 elements in before the call (one copy-in loop with
    literal bound 3) and exactly 3 elements back after it (one copy-out
    loop with literal bound 3); no heap allocation or release is emitted
    for the argument (the temporary's storage class is the stack, the only
    one a constant dimension produces). -/
theorem c8_const3_copy :
    ∀ (item : Item) (raw : List (String × VarInfo)) (annotated extras : List AArg) (a : AArg),
      resolveArgs item = .ok raw →
      mapME (annotateArg false) raw = .ok annotated →
      scanArgs annotated 0 = .ok extras →
      a ∈ integerArgsOf annotated →
      a.dimension = some [Dim.str "3"] →
      a.intent = some ["in", "out"] →
      ((integerArgsOf annotated).map AArg.name).Nodup →
      ∃ r body, generate_code item false = .ok r ∧ r.body = some body
        ∧ a.array_size = some "3" ∧ a.constant_dimension = true
        ∧ parseNat? "3" = some 3
        ∧ countStmt (CStmt.copyIn a.name "3" a.src_ctype) body = 1
        ∧ countStmt (CStmt.copyOut a.name "3" a.dst_ctype) body = 1
        ∧ CStmt.declStack a.src_ctype a.name "3" ∈ body
        ∧ countStmt (CStmt.freeStmt a.name) body = 0
        ∧ countStmt (CStmt.callocStmt a.name a.src_ctype "3") body = 0 := by
  intro item raw annotated extras a h1 h2 h3 ha hdim3 hint hnd
  have hok := generate_code_ok item false raw annotated extras h1 h2 h3
  have hmemf := List.mem_filter.mp ha
  have htys : a.typespec = "integer" := by simpa using hmemf.2
  obtain ⟨p, hp, hann⟩ := mapME_mem (annotateArg false) raw annotated h2 a hmemf.1
  obtain ⟨-, hty, -, hdimEq, -, -⟩ := annotateArg_fields false p a hann
  have hpdim : p.2.dimension = some [Dim.str "3"] := by rw [← hdimEq, hdim3]
  have hpty : p.2.typespec = "integer" := by rw [← hty, htys]
  have hfa : format_array_size [Dim.str "3"] = .ok "3" := rfl
  obtain ⟨harr, hconst0⟩ := annotateArg_array false p a [Dim.str "3"] "3" hann hpty hpdim hfa
  have hconst : a.constant_dimension = true := by rw [hconst0]; rfl
  have hgd : a.array_size.getD "" = "3" := by rw [harr]; rfl
  have hdim : dimTruthy a = true := by simp [dimTruthy, hdim3]
  have hin : hasIn a = true := by simp [hasIn, hint]
  have hout : hasOut a = true := by simp [hasOut, hint]
  obtain ⟨hp1, hp2, hp3, hp4, hp5⟩ :=
    renderBody_const_props item (integerArgsOf annotated) (annotated ++ extras) a
      ha hnd hdim hconst hin hout
  rw [hgd] at hp1 hp2 hp3 hp5
  exact ⟨_, _, hok, rfl, harr, hconst, rfl, hp1, hp2, hp3, hp4, hp5⟩

/-- Claim C8 witness: c8_const3_copy applied to a routine with one integer
    in-out argument of constant dimension 3. -/
theorem c8_witness :
    ∃ r body,
      generate_code
        { name := "drotg3", block := "subroutine", args := ["t"],
          vars := [("t", { typespec := "integer", intent := some ["in", "out"],
                           dimension := some [Dim.str "3"] })] } false = .ok r
      ∧ r.body = some body
      ∧ countStmt (CStmt.copyIn "t" "3" "SRC_INT") body = 1
      ∧ countStmt (CStmt.copyOut "t" "3" "INT") body = 1 := by
  obtain ⟨r, body, hok, hbody, -, -, -, hin, hout, -, -, -⟩ :=
    c8_const3_copy
      { name := "drotg3", block := "subroutine", args := ["t"],
        vars := [("t", { typespec := "integer", intent := some ["in", "out"],
                         dimension := some [Dim.str "3"] })] }
      [("t", { typespec := "integer", intent := some ["in", "out"],
               dimension := some [Dim.str "3"] })]
      [{ name := "t", typespec := "integer", intent := some ["in", "out"],
         dimension := some [Dim.str "3"], dst_ctype := "INT", src_ctype := "SRC_INT",
         array_size := some "3", constant_dimension := true }]
      []
      { name := "t", typespec := "integer", intent := some ["in", "out"],
        dimension := some [Dim.str "3"], dst_ctype := "INT", src_ctype := "SRC_INT",
        array_size := some "3", constant_dimension := true }
      rfl rfl rfl (by decide) rfl rfl (by decide)
  exact ⟨r, body, hok, hbody, hin, hout⟩

/-- The argument whose conversion temporary a statement manipulates:
    declarations, allocation, assert, copies and free address name_tmp for
    their argument; the call, the idx and return-value declarations and the
    return touch no temporary. -/
def tmpOwner : CStmt → Option String
  | .declStack _ n _ => some n
  | .declPtr _ n => some n
  | .callocStmt n _ _ => some n
  | .assertStmt n => some n
  | .copyIn n _ _ => some n
  | .copyInScalar n _ => some n
  | .copyOut n _ _ => some n
  | .copyOutScalar n _ => some n
  | .freeStmt n => some n
  | .declIdx => none
  | .declRet _ => none
  | .callStmt _ _ _ => none
  | .returnStmt => none

theorem declOf_owner (b : AArg) : tmpOwner (declOf b) = some b.name := by
  rcases declOf_cases b with h | h | h <;> (rw [h]; rfl)

theorem preOps_owner (b : AArg) (x : CStmt) (hx : x ∈ preOps b) : tmpOwner x = some b.name := by
  rcases preOps_mem_cases b x hx with h | h | h | h <;> (rw [h]; rfl)

theorem postOps_owner (b : AArg) (x : CStmt) (hx : x ∈ postOps b) : tmpOwner x = some b.name := by
  rcases postOps_mem_cases b x hx with h | h | h <;> (rw [h]; rfl)

theorem renderBody_owner (item : Item) (intArgs argsAll : List AArg) (s : CStmt)
    (hs : s ∈ renderBody item intArgs argsAll) (onm : String)
    (ho : tmpOwner s = some onm) : ∃ b, b ∈ intArgs ∧ b.name = onm := by
  rw [renderBody] at hs
  rcases List.mem_append.mp hs with hs | hs
  · rcases List.mem_append.mp hs with hs | hs
    · rcases List.mem_append.mp hs with hs | hs
      · rcases List.mem_append.mp hs with hs | hs
        · rcases List.mem_append.mp hs with hs | hs
          · rcases List.mem_append.mp hs with hs | hs
            · obtain ⟨b, hb, hbe⟩ := List.mem_map.mp hs
              refine ⟨b, hb, ?_⟩
              rw [← hbe, declOf_owner b] at ho
              injection ho
            · split at hs
              · simp at hs
                rw [hs] at ho
                simp [tmpOwner] at ho
              · simp at hs
          · split at hs
            · simp at hs
              rw [hs] at ho
              simp [tmpOwner] at ho
            · simp at hs
        · obtain ⟨b, hb, hx⟩ := catMap_mem_inv preOps intArgs s hs
          refine ⟨b, hb, ?_⟩
          rw [preOps_owner b s hx] at ho
          injection ho
      · simp at hs
        rw [hs] at ho
        simp [tmpOwner] at ho
    · obtain ⟨b, hb, hx⟩ := catMap_mem_inv postOps intArgs s hs
      refine ⟨b, hb, ?_⟩
      rw [postOps_owner b s hx] at ho
      injection ho
  · split at hs
    · simp at hs
      rw [hs] at ho
      simp [tmpOwner] at ho
    · simp at hs

theorem getq_mem {α : Type} : ∀ (l : List α) (i : Nat) (x : α), l.get? i = some x → x ∈ l := by
  intro l
  induction l with
  | nil => intro i x h; simp at h
  | cons hd tl ih =>
    intro i x h
    cases i with
    | zero => simp at h; rw [h]; exact List.mem_cons_self _ _
    | succ j =>
      simp only [List.get?] at h
      exact List.mem_cons_of_mem _ (ih j x h)

/-- Claim C10: a logical argument is declared as a pointer to the
    source-width integer type (SRC_INT) in the source-width declaration and
    as a pointer to the destination-width integer type (INT) in the
    destination-width definition, yet the caller's pointer is passed to the
    underlying call unconverted: every temporary-manipulating statement of
    the body belongs to an argument whose base type is exactly integer, and
    none belongs to the logical argument. -/
theorem c10_logical_passthrough :
    ∀ (item : Item) (raw : List (String × VarInfo)) (ap exP ad exD : List AArg)
      (i : Nat) (nm : String) (vi : VarInfo),
      resolveArgs item = .ok raw →
      mapME (annotateArg true) raw = .ok ap →
      scanArgs ap 0 = .ok exP →
      mapME (annotateArg false) raw = .ok ad →
      scanArgs ad 0 = .ok exD →
      raw.get? i = some (nm, vi) →
      vi.typespec = "logical" →
      (ad.map AArg.name).Nodup →
      ∃ rp rd body,
        generate_code item true = .ok rp
        ∧ rp.params.get? i = some (Param.ptrParam "SRC_INT" nm)
        ∧ generate_code item false = .ok rd
        ∧ rd.params.get? i = some (Param.ptrParam "INT" nm)
        ∧ rd.body = some body
        ∧ CStmt.callStmt (retCastOf item) item.name ((ad ++ exD).map callArgOf) ∈ body
        ∧ ((ad ++ exD).map callArgOf).get? i = some nm
        ∧ (∀ s ∈ body, ∀ onm, tmpOwner s = some onm →
            ∃ b, b ∈ integerArgsOf ad ∧ b.name = onm)
        ∧ (∀ s ∈ body, tmpOwner s ≠ some nm) := by
  intro item raw ap exP ad exD i nm vi h1 h2 h3 h4 h5 hget hlog hnd
  have hokp := generate_code_ok item true raw ap exP h1 h2 h3
  have hokd := generate_code_ok item false raw ad exD h1 h4 h5
  obtain ⟨aP, hannP, hgetP⟩ := mapME_getq (annotateArg true) raw ap i (nm, vi) h2 hget
  obtain ⟨aD, hannD, hgetD⟩ := mapME_getq (annotateArg false) raw ad i (nm, vi) h4 hget
  obtain ⟨hPname, hPty, -, -, -, hPdst⟩ := annotateArg_fields true (nm, vi) aP hannP
  obtain ⟨hDname, hDty, -, -, -, hDdst⟩ := annotateArg_fields false (nm, vi) aD hannD
  have hPdst' : aP.dst_ctype = "SRC_INT" := by
    rw [hPdst, if_pos rfl, hlog]
    rfl
  have hDdst' : aD.dst_ctype = "INT" := by
    rw [hDdst, if_neg (by simp), hlog]
    rfl
  have hPlog : aP.typespec = "logical" := by rw [hPty, hlog]
  have hDlog : aD.typespec = "logical" := by rw [hDty, hlog]
  have hparamP : ((ap ++ exP).map paramOf).get? i = some (Param.ptrParam "SRC_INT" nm) := by
    have := getq_map paramOf (ap ++ exP) i aP (getq_append_l ap exP i aP hgetP)
    rw [this]
    have : paramOf aP = Param.ptrParam "SRC_INT" nm := by
      rw [paramOf, if_neg (by rw [hPlog]; simp), hPdst', hPname]
    rw [this]
  have hparamD : ((ad ++ exD).map paramOf).get? i = some (Param.ptrParam "INT" nm) := by
    have := getq_map paramOf (ad ++ exD) i aD (getq_append_l ad exD i aD hgetD)
    rw [this]
    have : paramOf aD = Param.ptrParam "INT" nm := by
      rw [paramOf, if_neg (by rw [hDlog]; simp), hDdst', hDname]
    rw [this]
  have hcallarg : ((ad ++ exD).map callArgOf).get? i = some nm := by
    have := getq_map callArgOf (ad ++ exD) i aD (getq_append_l ad exD i aD hgetD)
    rw [this]
    have : callArgOf aD = nm := by
      rw [callArgOf, if_neg (by rw [hDlog]; simp), if_neg (by rw [hDlog]; simp), hDname]
    rw [this]
  have hcallmem : CStmt.callStmt (retCastOf item) item.name ((ad ++ exD).map callArgOf)
      ∈ renderBody item (integerArgsOf ad) (ad ++ exD) := by
    rw [renderBody]
    apply List.mem_append.mpr
    left
    apply List.mem_append.mpr
    left
    apply List.mem_append.mpr
    right
    exact List.mem_cons_self _ _
  have howner := fun s hs onm ho =>
    renderBody_owner item (integerArgsOf ad) (ad ++ exD) s hs onm ho
  refine ⟨_, _, _, hokp, hparamP, hokd, hparamD, rfl, hcallmem, hcallarg, howner, ?_⟩
  intro s hs ho
  obtain ⟨b, hb, hbn⟩ := howner s hs nm ho
  have hbmem := List.mem_filter.mp hb
  have hbty : b.typespec = "integer" := by simpa using hbmem.2
  have hba : b = aD := nodup_names_unique ad hnd b aD hbmem.1 (getq_mem ad i aD hgetD)
    (by rw [hbn, hDname])
  rw [hba, hDlog] at hbty
  exact absurd hbty (by decide)
/-- Claim C10 witness: c10_logical_passthrough applied to a routine with a
    single logical argument. -/
theorem c10_witness :
    ∃ rp rd body,
      generate_code
        { name := "ilaenv1", block := "subroutine", args := ["sel"],
          vars := [("sel", { typespec := "logical" })] } true = .ok rp
      ∧ rp.params.get? 0 = some (Param.ptrParam "SRC_INT" "sel")
      ∧ generate_code
        { name := "ilaenv1", block := "subroutine", args := ["sel"],
          vars := [("sel", { typespec := "logical" })] } false = .ok rd
      ∧ rd.params.get? 0 = some (Param.ptrParam "INT" "sel")
      ∧ rd.body = some body
      ∧ (∀ s ∈ body, tmpOwner s ≠ some "sel") := by
  obtain ⟨rp, rd, body, hokp, hpp, hokd, hpd, hbody, -, -, -, hnone⟩ :=
    c10_logical_passthrough
      { name := "ilaenv1", block := "subroutine", args := ["sel"],
        vars := [("sel", { typespec := "logical" })] }
      [("sel", { typespec := "logical" })]
      [{ name := "sel", typespec := "logical", intent := none, dimension := none,
         dst_ctype := "SRC_INT", src_ctype := "SRC_INT", array_size := none,
         constant_dimension := false }]
      []
      [{ name := "sel", typespec := "logical", intent := none, dimension := none,
         dst_ctype := "INT", src_ctype := "SRC_INT", array_size := none,
         constant_dimension := false }]
      []
      0 "sel" { typespec := "logical" }
      rfl rfl rfl rfl rfl rfl rfl (by decide)
  exact ⟨rp, rd, body, hokp, hpp, hokd, hpd, hbody, hnone⟩

/-- Claim C3 witness: the unresolved-persistence part of
    c3_no_name_convention applied at the iwork/liwork configuration with an
    empty documentation map. -/
theorem c3_witness :
    (resolveVar [] []
        [("iwork", { typespec := "integer", dimension := some [Dim.str "*"] }),
         ("liwork", { typespec := "integer" })]
        "iwork" { typespec := "integer", dimension := some [Dim.str "*"] }).dimension
      = some [Dim.str "*"] :=
  (c3_no_name_convention.1 [] []
    [("iwork", { typespec := "integer", dimension := some [Dim.str "*"] }),
     ("liwork", { typespec := "integer" })]
    "iwork" { typespec := "integer", dimension := some [Dim.str "*"] } rfl).trans rfl
